import Mathlib

/-!
Verification of the branch-and-bound 0/1 knapsack optimizer in
`src/optimization/branch_and_bound.py` (HR analytics repository).

The Python module is embedded shallowly: costs, impacts and budgets are
rationals (the source works with Python floats used as real numbers),
Python exceptions (`ZeroDivisionError` in `calculate_bound`, `IndexError`
on list indexing) are modelled by `Option` with `none` for a raised
exception, and `time.time()` is modelled by explicit clock readings
`t0 t1` passed to `solve`.  The `heapq` priority queue is embedded
operation by operation (`heappush`, `heappop`, `_siftup`, `_siftdown`),
since the solver's counters depend on the exact pop order.
-/

namespace HRBB

/-- Embeds the `Project` dataclass: `id`, `name`, `cost`, `impact`,
`category` plus the derived `efficiency` field set by `__post_init__`. -/
structure Project where
  id : Int
  name : String
  cost : ℚ
  impact : ℚ
  category : String
  efficiency : ℚ
deriving DecidableEq, Repr, Inhabited

/-- Embeds `Project.__init__` followed by `__post_init__`:
`efficiency = impact / cost` when `cost > 0`, else `0.0`. -/
def mkProject (id : Int) (name : String) (cost impact : ℚ) (category : String) : Project :=
  { id := id, name := name, cost := cost, impact := impact, category := category,
    efficiency := if 0 < cost then impact / cost else 0 }

/-- Embeds the `Node` dataclass of the search tree. -/
structure BBNode where
  level : Nat
  selected : List Int
  total_cost : ℚ
  total_impact : ℚ
  bound : ℚ
deriving DecidableEq, Repr, Inhabited

/-- Embeds `Node.__lt__`: a node is "smaller" (= higher priority for
`heapq`'s min-heap) when its bound is larger. -/
def nodeLt (a b : BBNode) : Bool := decide (b.bound < a.bound)

/-! ### The `heapq` priority queue

Faithful embedding of CPython's `heapq.heappush` / `heapq.heappop`
(`_siftdown` moves a new leaf up; `_siftup` moves the root replacement
down to a leaf and then calls `_siftdown`).  The `while` loops are fueled;
a fuel of `pos` (resp. the heap length) strictly dominates the number of
iterations, so the fuel-exhaustion branches are unreachable at the call
sites used below. -/

/-- Embeds `heapq._siftdown(heap, startpos, pos)` where `newitem` is the
element initially stored at index `pos`. -/
def siftdownLoop : Nat → List BBNode → Nat → Nat → BBNode → List BBNode
  | 0, heap, _, pos, newitem => heap.set pos newitem
  | fuel + 1, heap, startpos, pos, newitem =>
    if startpos < pos then
      let parentpos := (pos - 1) / 2
      let parent := heap.getD parentpos default
      if nodeLt newitem parent then
        siftdownLoop fuel (heap.set pos parent) startpos parentpos newitem
      else
        heap.set pos newitem
    else
      heap.set pos newitem

/-- Embeds `heapq._siftup(heap, pos)` where `newitem` is the element
initially stored at index `pos` and `endpos` is the heap length. -/
def siftupLoop : Nat → List BBNode → Nat → Nat → Nat → BBNode → List BBNode
  | 0, heap, _, _, pos, newitem => heap.set pos newitem
  | fuel + 1, heap, endpos, startpos, pos, newitem =>
    let childpos := 2 * pos + 1
    if childpos < endpos then
      let rightpos := childpos + 1
      let childpos2 :=
        if rightpos < endpos &&
            !(nodeLt (heap.getD childpos default) (heap.getD rightpos default)) then
          rightpos
        else childpos
      siftupLoop fuel (heap.set pos (heap.getD childpos2 default)) endpos startpos childpos2 newitem
    else
      siftdownLoop pos (heap.set pos newitem) startpos pos newitem

/-- Embeds `heapq.heappush(heap, item)`: append, then sift the new leaf up. -/
def heappush (heap : List BBNode) (item : BBNode) : List BBNode :=
  siftdownLoop heap.length (heap ++ [item]) 0 heap.length item

/-- Embeds `heapq.heappop(heap)`: `none` on an empty heap (the solver's
`while` guard prevents that call), otherwise the popped root and the
remaining heap. -/
def heappop (heap : List BBNode) : Option (BBNode × List BBNode) :=
  match heap.getLast? with
  | none => none
  | some lastelt =>
    let rest := heap.dropLast
    if rest.isEmpty then some (lastelt, [])
    else
      some (rest.getD 0 default, siftupLoop rest.length (rest.set 0 lastelt) rest.length 0 0 lastelt)

/-! ### The `BranchAndBound` class -/

/-- The mutable attributes of a `BranchAndBound` object during `solve`,
together with the local `priority_queue`. -/
structure BBState where
  queue : List BBNode
  nodesExpanded : Nat
  nodesPrunedInfeasible : Nat
  nodesPrunedBound : Nat
  maxDepth : Nat
  best : Option BBNode
  bestValue : ℚ
deriving DecidableEq, Repr, Inhabited

/-- Embeds the `for i in range(node.level, n)` loop body of
`calculate_bound`, walking the projects from index `level` on.  Returns
`none` exactly when Python raises `ZeroDivisionError`
(`remaining_budget / project.cost` with `project.cost == 0`, reached only
when `cost <= remaining_budget` fails, i.e. `remaining_budget < 0`). -/
def boundWalk (remainingBudget : ℚ) : List Project → Option ℚ
  | [] => some 0
  | p :: rest =>
    if p.cost ≤ remainingBudget then
      (boundWalk (remainingBudget - p.cost) rest).map (fun b => p.impact + b)
    else if p.cost = 0 then none
    else some (p.impact * (remainingBudget / p.cost))

/-- Embeds `BranchAndBound.calculate_bound`. -/
def calculateBound (projects : List Project) (budget : ℚ) (node : BBNode) : Option ℚ :=
  (boundWalk (budget - node.total_cost) (projects.drop node.level)).map
    (fun b => node.total_impact + b)

/-- Embeds `BranchAndBound.is_feasible`. -/
def isFeasible (budget : ℚ) (node : BBNode) : Bool := decide (node.total_cost ≤ budget)

/-- Embeds `BranchAndBound.should_prune`, which also increments the
pruning counters, so it returns the updated state. -/
def shouldPrune (budget : ℚ) (st : BBState) (node : BBNode) : Bool × String × BBState :=
  if !isFeasible budget node then
    (true, "infeasible", { st with nodesPrunedInfeasible := st.nodesPrunedInfeasible + 1 })
  else if node.bound ≤ st.bestValue then
    (true, "bound", { st with nodesPrunedBound := st.nodesPrunedBound + 1 })
  else
    (false, "none", st)

/-- Embeds `BranchAndBound.update_best_solution`. -/
def updateBestSolution (budget : ℚ) (st : BBState) (node : BBNode) : BBState :=
  if isFeasible budget node && decide (st.bestValue < node.total_impact) then
    { st with best := some node, bestValue := node.total_impact }
  else st

/-- Embeds the result dictionary of `_get_metrics`. -/
structure SolveMetrics where
  nodes_expanded : Nat
  nodes_pruned_total : Nat
  nodes_pruned_infeasible : Nat
  nodes_pruned_bound : Nat
  max_depth : Nat
  execution_time_seconds : ℚ
  pruning_efficiency_pct : ℚ
deriving DecidableEq, Repr, Inhabited

/-- Embeds the `"solution"` sub-dictionary of `_prepare_result` (also the
shape of `greedy_heuristic`'s solution). -/
structure SolveSolution where
  selected_projects : List Project
  total_cost : ℚ
  total_impact : ℚ
  budget_used_pct : ℚ
  n_projects_selected : Nat
deriving DecidableEq, Repr, Inhabited

/-- Embeds the `"details"` sub-dictionary of `_prepare_result`. -/
structure SolveDetails where
  budget : ℚ
  n_projects_available : Nat
  execution_time : ℚ
deriving DecidableEq, Repr, Inhabited

/-- Embeds the result dictionary returned by `solve`: either the
`status="no_solution"` shape or the `status="optimal"` shape. -/
inductive SolveResult
  | noSolution (message : String) (metrics : SolveMetrics)
  | optimal (solution : SolveSolution) (metrics : SolveMetrics) (details : SolveDetails)
deriving DecidableEq, Repr, Inhabited

/-- The `"status"` entry of a result dictionary. -/
def SolveResult.status : SolveResult → String
  | .noSolution _ _ => "no_solution"
  | .optimal _ _ _ => "optimal"

/-- The total value a caller reads off a result, taking a no-solution
outcome as value `0` (the reading used by the monotonicity claim). -/
def SolveResult.returnedValue : SolveResult → ℚ
  | .noSolution _ _ => 0
  | .optimal sol _ _ => sol.total_impact

/-- Embeds `BranchAndBound._get_metrics`. -/
def getMetrics (st : BBState) (execTime : ℚ) : SolveMetrics :=
  let totalPruned := st.nodesPrunedInfeasible + st.nodesPrunedBound
  { nodes_expanded := st.nodesExpanded
    nodes_pruned_total := totalPruned
    nodes_pruned_infeasible := st.nodesPrunedInfeasible
    nodes_pruned_bound := st.nodesPrunedBound
    max_depth := st.maxDepth
    execution_time_seconds := execTime
    pruning_efficiency_pct :=
      if 0 < st.nodesExpanded + totalPruned then
        ((totalPruned : ℚ) / ((st.nodesExpanded : ℚ) + (totalPruned : ℚ))) * 100
      else 0 }

/-- Embeds `BranchAndBound._prepare_result`. -/
def prepareResult (projects : List Project) (budget : ℚ) (st : BBState) (execTime : ℚ) :
    SolveResult :=
  match st.best with
  | none => .noSolution "Nenhuma solucao viavel encontrada" (getMetrics st execTime)
  | some bestNode =>
    let selectedProjects := projects.filter (fun p => bestNode.selected.contains p.id)
    .optimal
      { selected_projects := selectedProjects
        total_cost := bestNode.total_cost
        total_impact := bestNode.total_impact
        budget_used_pct := bestNode.total_cost / budget * 100
        n_projects_selected := selectedProjects.length }
      (getMetrics st execTime)
      { budget := budget, n_projects_available := projects.length, execution_time := execTime }

/-- The state right after `heappop`: the two statements
`self.nodes_expanded += 1` and `self.max_depth = max(...)` that `solve`
executes on every popped node. -/
def poppedState (st : BBState) (cur : BBNode) (q1 : List BBNode) : BBState :=
  { st with queue := q1, nodesExpanded := st.nodesExpanded + 1,
            maxDepth := max st.maxDepth cur.level }

/-- The per-child pattern of the loop body: call `should_prune` on the
child (updating the pruning counters) and `heappush` it if it survives. -/
def pruneOrPush (budget : ℚ) (s : BBState) (child : BBNode) : BBState :=
  let pr := shouldPrune budget s child
  if pr.1 then pr.2.2
  else { pr.2.2 with queue := heappush pr.2.2.queue child }

/-- The expansion part of the loop body: build the include child and the
exclude child, compute their bounds (`none` propagates a
`ZeroDivisionError`), test each against `should_prune` and push the
survivors. -/
def expandStep (projects : List Project) (budget : ℚ) (st2 : BBState) (cur : BBNode)
    (project : Project) : Option BBState :=
  let left0 : BBNode :=
    { level := cur.level + 1, selected := cur.selected ++ [project.id],
      total_cost := cur.total_cost + project.cost,
      total_impact := cur.total_impact + project.impact, bound := 0 }
  match calculateBound projects budget left0 with
  | none => none
  | some lb =>
    let st3 := pruneOrPush budget st2 { left0 with bound := lb }
    let right0 : BBNode :=
      { level := cur.level + 1, selected := cur.selected,
        total_cost := cur.total_cost, total_impact := cur.total_impact, bound := 0 }
    match calculateBound projects budget right0 with
    | none => none
    | some rb => some (pruneOrPush budget st3 { right0 with bound := rb })

/-- One pass of the `while priority_queue:` loop of `solve`, with fuel.
`none` models both a propagated exception and fuel exhaustion; the fuel
used by `solve` is proven sufficient below, so for it `none` only arises
from an exception. -/
def solveLoop (projects : List Project) (budget : ℚ) : Nat → BBState → Option BBState
  | 0, _ => none
  | fuel + 1, st =>
    match heappop st.queue with
    | none => some st
    | some (cur, q1) =>
      let pr := shouldPrune budget (poppedState st cur q1) cur
      if pr.1 then solveLoop projects budget fuel pr.2.2
      else if cur.level = projects.length then
        solveLoop projects budget fuel (updateBestSolution budget pr.2.2 cur)
      else
        match projects[cur.level]? with
        | none => none
        | some project =>
          match expandStep projects budget pr.2.2 cur project with
          | none => none
          | some st4 => solveLoop projects budget fuel st4

/-- The relation by which `__init__` sorts: efficiency descending.
Python's `list.sort` is stable, as is `List.insertionSort`, so they agree
on ties. -/
def effGE (a b : Project) : Prop := b.efficiency ≤ a.efficiency

instance : DecidableRel effGE := fun a b => inferInstanceAs (Decidable (b.efficiency ≤ a.efficiency))

instance : IsTotal Project effGE := ⟨fun a b => le_total b.efficiency a.efficiency⟩

instance : IsTrans Project effGE := ⟨fun _ _ _ h1 h2 => le_trans h2 h1⟩

/-- Embeds `self.projects.sort(key=lambda p: p.efficiency, reverse=True)`
(a stable sort by efficiency descending). -/
def sortProjects (projects : List Project) : List Project := projects.insertionSort effGE

/-- A constructed `BranchAndBound` object (projects already sorted). -/
structure BranchAndBound where
  projects : List Project
  budget : ℚ
deriving DecidableEq, Repr

/-- Embeds `BranchAndBound.__init__`: `none` models a raised
`ValueError` (empty project list, or non-positive budget).  These are the
only validations the constructor performs. -/
def mkBranchAndBound (projects : List Project) (budget : ℚ) : Option BranchAndBound :=
  if projects.isEmpty then none
  else if budget ≤ 0 then none
  else some { projects := sortProjects projects, budget := budget }

/-- Embeds `BranchAndBound.solve` (`verbose` only prints and is dropped).
`t0` and `t1` are the two `time.time()` readings. -/
def BranchAndBound.solve (bb : BranchAndBound) (t0 t1 : ℚ) : Option SolveResult :=
  match calculateBound bb.projects bb.budget
      { level := 0, selected := [], total_cost := 0, total_impact := 0, bound := 0 } with
  | none => none
  | some rootBound =>
    let root : BBNode :=
      { level := 0, selected := [], total_cost := 0, total_impact := 0, bound := rootBound }
    let st0 : BBState :=
      { queue := heappush [] root, nodesExpanded := 0, nodesPrunedInfeasible := 0,
        nodesPrunedBound := 0, maxDepth := 0, best := none, bestValue := 0 }
    match solveLoop bb.projects bb.budget (3 ^ bb.projects.length + 1) st0 with
    | none => none
    | some stF => some (prepareResult bb.projects bb.budget stF (t1 - t0))

/-- Embeds the result dictionary of `greedy_heuristic`. -/
structure HeuristicResult where
  status : String
  solution : SolveSolution
  execution_time_seconds : ℚ
deriving DecidableEq, Repr

/-- Embeds the selection loop of `greedy_heuristic`, with accumulated
cost and impact. -/
def greedyRun (budget : ℚ) : List Project → ℚ → ℚ → List Project × ℚ × ℚ
  | [], c, v => ([], c, v)
  | p :: rest, c, v =>
    if c + p.cost ≤ budget then
      let res := greedyRun budget rest (c + p.cost) (v + p.impact)
      (p :: res.1, res.2)
    else
      greedyRun budget rest c v

/-- Embeds `greedy_heuristic(projects, budget)`; `t0 t1` are its two
`time.time()` readings. -/
def greedyHeuristic (projects : List Project) (budget : ℚ) (t0 t1 : ℚ) : HeuristicResult :=
  let sortedProjects := sortProjects projects
  let res := greedyRun budget sortedProjects 0 0
  { status := "heuristic"
    solution :=
      { selected_projects := res.1, total_cost := res.2.1, total_impact := res.2.2,
        budget_used_pct := res.2.1 / budget * 100, n_projects_selected := res.1.length }
    execution_time_seconds := t1 - t0 }

/-! ### Specification-side definitions

The mathematical 0/1 knapsack optimum the claims compare `solve` with:
the maximum total impact over all subsets (sublists) of the project list
whose total cost is at most the budget. -/

/-- Total cost of a subset of projects. -/
def subsetCost (s : List Project) : ℚ := (s.map Project.cost).sum

/-- Total impact (value) of a subset of projects. -/
def subsetValue (s : List Project) : ℚ := (s.map Project.impact).sum

/-- All subsets of the project list that fit within the budget. -/
def feasibleSubsets (projects : List Project) (budget : ℚ) : List (List Project) :=
  projects.sublists.filter (fun s => decide (subsetCost s ≤ budget))

/-- The optimal 0/1 knapsack value: the maximum of `subsetValue` over all
feasible subsets (the empty subset, of value `0`, is always feasible for
a non-negative budget). -/
def knapsackOpt (projects : List Project) (budget : ℚ) : ℚ :=
  ((feasibleSubsets projects budget).map subsetValue).foldr max 0

/-! ### Auxiliary definitions for stating and proving the claims -/

/-- The loop body of `calculate_bound` with total division (in `ℚ`,
`x / 0 = 0`).  It agrees with `boundWalk` whenever no `ZeroDivisionError`
occurs, in particular for positive costs. -/
def boundWalkT (remainingBudget : ℚ) : List Project → ℚ
  | [] => 0
  | p :: rest =>
    if p.cost ≤ remainingBudget then p.impact + boundWalkT (remainingBudget - p.cost) rest
    else p.impact * (remainingBudget / p.cost)

/-- The `"metrics"` entry of a result dictionary. -/
def SolveResult.metricsOf : SolveResult → SolveMetrics
  | .noSolution _ m => m
  | .optimal _ m _ => m

/-- The reported `total_cost` of a result (`0` for a no-solution outcome). -/
def SolveResult.solutionCost : SolveResult → ℚ
  | .noSolution _ _ => 0
  | .optimal sol _ _ => sol.total_cost

/-- Erases the wall-clock-derived field of the metrics. -/
def eraseMetricsTime (m : SolveMetrics) : SolveMetrics :=
  { m with execution_time_seconds := 0 }

/-- Erases every wall-clock-derived field of a result
(`metrics.execution_time_seconds` and `details.execution_time`). -/
def eraseResultTime : SolveResult → SolveResult
  | .noSolution msg m => .noSolution msg (eraseMetricsTime m)
  | .optimal sol m det => .optimal sol (eraseMetricsTime m) { det with execution_time := 0 }

/-- Ghost-instrumented solver state: the program state plus four counters
that classify what happened to each node popped from the frontier.  These
counters are not in the source; they are verification instrumentation
used to relate `nodes_expanded` to the number of pops, pruned pops, leaf
pops and expansions. -/
structure GState where
  core : BBState
  popCount : Nat
  expandCount : Nat
  prunedPopCount : Nat
  leafPopCount : Nat
deriving DecidableEq, Repr

/-- `solveLoop` with the ghost counters threaded along: `popCount` counts
every `heappop`, and exactly one of `prunedPopCount`, `leafPopCount`,
`expandCount` is bumped per pop, matching the three branches of the loop.
The `core` component evolves exactly as in `solveLoop`. -/
def solveLoopG (projects : List Project) (budget : ℚ) : Nat → GState → Option GState
  | 0, _ => none
  | fuel + 1, g =>
    match heappop g.core.queue with
    | none => some g
    | some (cur, q1) =>
      let g1 : GState := { g with core := poppedState g.core cur q1, popCount := g.popCount + 1 }
      let pr := shouldPrune budget g1.core cur
      if pr.1 then
        solveLoopG projects budget fuel
          { g1 with core := pr.2.2, prunedPopCount := g1.prunedPopCount + 1 }
      else if cur.level = projects.length then
        solveLoopG projects budget fuel
          { g1 with core := updateBestSolution budget pr.2.2 cur,
                    leafPopCount := g1.leafPopCount + 1 }
      else
        match projects[cur.level]? with
        | none => none
        | some project =>
          match expandStep projects budget pr.2.2 cur project with
          | none => none
          | some st4 =>
            solveLoopG projects budget fuel
              { g1 with core := st4, expandCount := g1.expandCount + 1 }

/-- `solve` with the ghost counters, returning the final instrumented
state instead of the result dictionary. -/
def BranchAndBound.solveG (bb : BranchAndBound) : Option GState :=
  match calculateBound bb.projects bb.budget
      { level := 0, selected := [], total_cost := 0, total_impact := 0, bound := 0 } with
  | none => none
  | some rootBound =>
    let root : BBNode :=
      { level := 0, selected := [], total_cost := 0, total_impact := 0, bound := rootBound }
    let st0 : BBState :=
      { queue := heappush [] root, nodesExpanded := 0, nodesPrunedInfeasible := 0,
        nodesPrunedBound := 0, maxDepth := 0, best := none, bestValue := 0 }
    solveLoopG bb.projects bb.budget (3 ^ bb.projects.length + 1)
      { core := st0, popCount := 0, expandCount := 0, prunedPopCount := 0, leafPopCount := 0 }

/-- Termination/adequacy measure of a frontier: each node at level `l`
contributes `3 ^ (n - l)`; one loop iteration strictly decreases it. -/
def measureQ (n : Nat) (q : List BBNode) : Nat :=
  ((q : Multiset BBNode).map (fun nd => 3 ^ (n - nd.level))).sum

/-- The include child as produced by `expandStep` (bound written with the
total walk; the two agree for positive costs). -/
def leftNodeOf (spr : List Project) (b : ℚ) (cur : BBNode) (project : Project) : BBNode :=
  { level := cur.level + 1, selected := cur.selected ++ [project.id],
    total_cost := cur.total_cost + project.cost,
    total_impact := cur.total_impact + project.impact,
    bound := (cur.total_impact + project.impact) +
      boundWalkT (b - (cur.total_cost + project.cost)) (spr.drop (cur.level + 1)) }

/-- The exclude child as produced by `expandStep`. -/
def rightNodeOf (spr : List Project) (b : ℚ) (cur : BBNode) : BBNode :=
  { level := cur.level + 1, selected := cur.selected, total_cost := cur.total_cost,
    total_impact := cur.total_impact,
    bound := cur.total_impact + boundWalkT (b - cur.total_cost) (spr.drop (cur.level + 1)) }

/-- The solver-loop invariant over the sorted project list `spr` and
budget `b`: every frontier node is feasible, carries the exact sums of an
actual subset of the first `level` projects, and a sound bound; the
incumbent value is the value of an actual feasible subset (or `0` with no
incumbent); and every feasible subset is either already dominated by the
incumbent value or still covered by a frontier node. -/
structure LoopInv (spr : List Project) (b : ℚ) (st : BBState) : Prop where
  qlevel : ∀ nd ∈ st.queue, nd.level ≤ spr.length
  qfeas : ∀ nd ∈ st.queue, nd.total_cost ≤ b
  qsums : ∀ nd ∈ st.queue, ∃ P, P.Sublist (spr.take nd.level) ∧
    nd.total_cost = subsetCost P ∧ nd.total_impact = subsetValue P
  qbound : ∀ nd ∈ st.queue, ∀ R, R.Sublist (spr.drop nd.level) →
    nd.total_cost + subsetCost R ≤ b → nd.total_impact + subsetValue R ≤ nd.bound
  bestNonneg : 0 ≤ st.bestValue
  bestNone : st.best = none → st.bestValue = 0
  bestSome : ∀ bn, st.best = some bn → 0 < st.bestValue ∧ st.bestValue = bn.total_impact ∧
    bn.total_cost ≤ b ∧
    ∃ P, P.Sublist spr ∧ subsetCost P ≤ b ∧ subsetValue P = st.bestValue
  covered : ∀ S, S.Sublist spr → subsetCost S ≤ b →
    subsetValue S ≤ st.bestValue ∨
    ∃ nd ∈ st.queue, ∃ R, R.Sublist (spr.drop nd.level) ∧
      subsetValue S = nd.total_impact + subsetValue R ∧
      subsetCost S = nd.total_cost + subsetCost R

/-- A lighter invariant used for instances in which no feasible node can
ever strictly improve the zero incumbent: the incumbent never appears. -/
structure NoSolInv (spr : List Project) (b : ℚ) (st : BBState) : Prop where
  qlevel : ∀ nd ∈ st.queue, nd.level ≤ spr.length
  qsums : ∀ nd ∈ st.queue, ∃ P, P.Sublist (spr.take nd.level) ∧
    nd.total_cost = subsetCost P ∧ nd.total_impact = subsetValue P
  bestIsNone : st.best = none
  bestZero : st.bestValue = 0

/-! Concrete instances used by the per-claim counterexamples and
witnesses. -/

/-- C1 counterexample instance: a zero-cost project sorted last makes the
fractional bound unsound, and the solver returns a suboptimal value. -/
def c1CexProjects : List Project :=
  [mkProject 1 "A" 2 6 "cat", mkProject 2 "D" 1 (1/2) "cat", mkProject 3 "Z" 0 10 "cat"]

/-- C1 witness instance (spec Scenario A). -/
def c1WitnessProjects : List Project :=
  [mkProject 1 "P1" 50 60 "cat", mkProject 2 "P2" 30 40 "cat", mkProject 3 "P3" 20 25 "cat"]

/-- C2 counterexample instance: positive-cost project followed by a
zero-cost, high-impact project (efficiency field 0, hence sorted last). -/
def c2CexProjects : List Project :=
  [mkProject 1 "P1" 1 1 "cat", mkProject 2 "Z" 0 100 "cat"]

/-- C2 witness instance (the spec's bound-function unit check). -/
def c2WitnessProjects : List Project :=
  [mkProject 1 "P1" 10 20 "cat", mkProject 2 "P2" 20 30 "cat", mkProject 3 "P3" 30 40 "cat"]

/-- C3 counterexample instance: the zero-value project G fits in the
budget, yet the result is `no_solution`, not optimal-with-value-zero. -/
def c3CexProjects : List Project :=
  [mkProject 1 "G" 2 0 "cat", mkProject 2 "H" 3 7 "cat"]

/-- C3 witness instance (spec Scenario C: nothing fits). -/
def c3WitnessProjects : List Project :=
  [mkProject 1 "P1" 100 50 "cat", mkProject 2 "P2" 150 75 "cat"]

/-- C4 counterexample instance: a negative-cost project is accepted. -/
def c4CexProjects : List Project := [mkProject 1 "N" (-1) 5 "cat"]

/-- C5 counterexample instance (same pathology as C1: with a zero-cost
project the solver can return strictly less than the greedy heuristic). -/
def c5CexProjects : List Project :=
  [mkProject 1 "A" 2 6 "cat", mkProject 2 "D" 1 (1/2) "cat", mkProject 3 "Z" 0 10 "cat"]

/-- C5 witness instance (spec Scenario E). -/
def c5WitnessProjects : List Project :=
  [mkProject 1 "A" 6 10 "cat", mkProject 2 "B" 5 8 "cat", mkProject 3 "C" 5 8 "cat"]

/-- C6 counterexample instance. -/
def c6CexProjects : List Project := [mkProject 1 "P" 1 1 "cat"]

/-- C7 counterexample instance: one project, fitting; the solver pops an
expanded root and a leaf, so `nodes_expanded = 2` although only one node
is expanded into children. -/
def c7CexProjects : List Project := [mkProject 1 "P" 1 1 "cat"]

/-- C7 witness instance (spec Scenario D). -/
def c7WitnessProjects : List Project := [mkProject 1 "P1" 50 30 "cat"]

/-- C8 counterexample instance: solve returns 21/2 at budget 2 but 19/2
at the larger budget 3. -/
def c8CexProjects : List Project :=
  [mkProject 1 "A" 1 2 "cat", mkProject 2 "B" 2 1 "cat",
   mkProject 3 "D" 1 (1/2) "cat", mkProject 4 "Z" 0 8 "cat"]

/-- C8 witness instance (spec Scenario B items). -/
def c8WitnessProjects : List Project :=
  [mkProject 1 "P1" 10 5 "cat", mkProject 2 "P2" 20 10 "cat", mkProject 3 "P3" 30 15 "cat"]

/-- C9 counterexample: a node with `total_cost = budget` but a zero-cost
project remaining, whose impact is still added to the bound. -/
def c9CexProjects : List Project :=
  [mkProject 1 "P1" 1 3 "cat", mkProject 2 "Z" 0 5 "cat"]

/-- C9 counterexample node: level 1, `P1` included, `total_cost = 1`. -/
def c9CexNode : BBNode :=
  { level := 1, selected := [1], total_cost := 1, total_impact := 3, bound := 0 }

/-- C9 witness instance. -/
def c9WitnessProjects : List Project :=
  [mkProject 1 "P1" 2 3 "cat", mkProject 2 "P2" 4 5 "cat"]

/-- C9 witness node: `total_cost = budget = 2`, positive-cost remainder. -/
def c9WitnessNode : BBNode :=
  { level := 1, selected := [1], total_cost := 2, total_impact := 3, bound := 0 }

/-- C9 witness node at level `n`. -/
def c9WitnessLeafNode : BBNode :=
  { level := 2, selected := [1, 2], total_cost := 6, total_impact := 8, bound := 0 }

/-- C10 witness instance. -/
def c10WitnessProjects : List Project :=
  [mkProject 1 "P1" 3 4 "cat", mkProject 2 "P2" 5 6 "cat"]

/-- C10 necessity instance: a single zero-cost project. -/
def c10ZeroCostProjects : List Project := [mkProject 1 "Z" 0 5 "cat"]

/-- C10 necessity node: infeasible (`total_cost = 2 > budget = 1`), so the
walk reaches the zero-cost project with a negative remaining budget and
divides by zero. -/
def c10InfeasibleNode : BBNode :=
  { level := 0, selected := [], total_cost := 2, total_impact := 0, bound := 0 }

/-! ## Theorems -/

/-! ### Multiset bookkeeping for the heap operations -/

lemma set_append_perm (l : List BBNode) (i : Nat) (a : BBNode) (h : i < l.length) :
    ((l.set i a) ++ [l.getD i default]).Perm (l ++ [a]) := by
  induction l generalizing i with
  | nil => simp at h
  | cons b t ih =>
    cases i with
    | zero =>
      show (a :: (t ++ [b])).Perm (b :: (t ++ [a]))
      exact ((List.perm_append_singleton b t).cons a).trans
        ((List.Perm.swap b a t).trans (((List.perm_append_singleton a t).symm).cons b))
    | succ j =>
      show (b :: ((t.set j a) ++ [t.getD j default])).Perm (b :: (t ++ [a]))
      exact (ih j (by simpa using h)).cons b

lemma coe_set_add (l : List BBNode) (i : Nat) (a : BBNode) (h : i < l.length) :
    (↑(l.set i a) : Multiset BBNode) + {l.getD i default} = (↑l : Multiset BBNode) + {a} := by
  have h2 := Multiset.coe_eq_coe.mpr (set_append_perm l i a h)
  simpa [← Multiset.coe_singleton, ← Multiset.coe_add] using h2

lemma coe_set_set (l : List BBNode) {i j : Nat} (a : BBNode) (hij : i ≠ j)
    (hi : i < l.length) (hj : j < l.length) :
    (↑((l.set i (l.getD j default)).set j a) : Multiset BBNode) = ↑(l.set i a) := by
  have h1 := coe_set_add (l.set i (l.getD j default)) j a (by simpa using hj)
  have hjval : (l.set i (l.getD j default)).getD j default = l.getD j default := by
    rw [List.getD_eq_getElem _ _ (by simpa using hj), List.getElem_set_ne hij,
      ← List.getD_eq_getElem _ _ hj]
  rw [hjval] at h1
  have h2 := coe_set_add l i (l.getD j default) hi
  have h3 := coe_set_add l i a hi
  have key : (↑((l.set i (l.getD j default)).set j a) : Multiset BBNode) +
      ({l.getD j default} + {l.getD i default}) =
      (↑(l.set i a) : Multiset BBNode) + ({l.getD j default} + {l.getD i default}) := by
    calc (↑((l.set i (l.getD j default)).set j a) : Multiset BBNode) +
        ({l.getD j default} + {l.getD i default})
        = ((↑((l.set i (l.getD j default)).set j a) : Multiset BBNode) +
            {l.getD j default}) + {l.getD i default} := by rw [add_assoc]
      _ = ((↑(l.set i (l.getD j default)) : Multiset BBNode) + {a}) + {l.getD i default} := by
          rw [h1]
      _ = ((↑(l.set i (l.getD j default)) : Multiset BBNode) + {l.getD i default}) + {a} := by
          rw [add_right_comm]
      _ = ((↑l : Multiset BBNode) + {l.getD j default}) + {a} := by rw [h2]
      _ = ((↑l : Multiset BBNode) + {a}) + {l.getD j default} := by rw [add_right_comm]
      _ = ((↑(l.set i a) : Multiset BBNode) + {l.getD i default}) + {l.getD j default} := by
          rw [h3]
      _ = (↑(l.set i a) : Multiset BBNode) + ({l.getD j default} + {l.getD i default}) := by
          rw [add_assoc, add_comm ({l.getD i default} : Multiset BBNode)]
  exact add_right_cancel key

lemma siftdownLoop_coe : ∀ (fuel : Nat) (heap : List BBNode) (startpos pos : Nat) (x : BBNode),
    pos < heap.length →
    (↑(siftdownLoop fuel heap startpos pos x) : Multiset BBNode) = ↑(heap.set pos x) := by
  intro fuel
  induction fuel with
  | zero => intro heap s pos x _; rfl
  | succ n ih =>
    intro heap s pos x hlt
    rw [siftdownLoop]
    by_cases h1 : s < pos
    · rw [if_pos h1]
      by_cases h2 : nodeLt x (heap.getD ((pos - 1) / 2) default)
      · rw [if_pos h2]
        have hpp : (pos - 1) / 2 < pos := by omega
        rw [ih _ _ _ _ (by rw [List.length_set]; exact lt_trans hpp hlt)]
        exact coe_set_set heap x (by omega) hlt (lt_trans hpp hlt)
      · rw [if_neg h2]
    · rw [if_neg h1]

lemma siftupLoop_coe : ∀ (fuel : Nat) (heap : List BBNode) (endpos startpos pos : Nat)
    (x : BBNode), pos < heap.length → endpos ≤ heap.length →
    (↑(siftupLoop fuel heap endpos startpos pos x) : Multiset BBNode) = ↑(heap.set pos x) := by
  intro fuel
  induction fuel with
  | zero => intro heap e s pos x _ _; rfl
  | succ n ih =>
    intro heap e s pos x hlt hend
    rw [siftupLoop]
    by_cases hc : 2 * pos + 1 < e
    · rw [if_pos hc]
      set c2 := if 2 * pos + 1 + 1 < e &&
          !(nodeLt (heap.getD (2 * pos + 1) default) (heap.getD (2 * pos + 1 + 1) default)) then
          2 * pos + 1 + 1
        else 2 * pos + 1 with hc2
      have hc2lt : c2 < e := by
        rw [hc2]; split
        · next hcond =>
          have := (Bool.and_eq_true _ _).mp hcond
          exact of_decide_eq_true this.1
        · exact hc
      have hc2pos : pos < c2 := by rw [hc2]; split <;> omega
      rw [ih _ _ _ _ _ (by rw [List.length_set]; omega) (by rw [List.length_set]; exact hend)]
      exact coe_set_set heap x (by omega) hlt (by omega)
    · rw [if_neg hc]
      rw [siftdownLoop_coe _ _ _ _ _ (by rw [List.length_set]; exact hlt), List.set_set]

lemma set_append_len (l : List BBNode) (x y : BBNode) :
    (l ++ [x]).set l.length y = l ++ [y] := by
  induction l with
  | nil => rfl
  | cons a t ih => simp [ih]

lemma heappush_coe (heap : List BBNode) (item : BBNode) :
    (↑(heappush heap item) : Multiset BBNode) = item ::ₘ ↑heap := by
  unfold heappush
  rw [siftdownLoop_coe _ _ _ _ _ (by simp), set_append_len,
    Multiset.coe_eq_coe.mpr (List.perm_append_singleton item heap), ← Multiset.cons_coe]

lemma mem_heappush {x item : BBNode} {heap : List BBNode} :
    x ∈ heappush heap item ↔ x = item ∨ x ∈ heap := by
  rw [← Multiset.mem_coe, heappush_coe, Multiset.mem_cons, Multiset.mem_coe]

lemma eq_nil_of_heappop_none (heap : List BBNode) (h : heappop heap = none) : heap = [] := by
  by_contra hne
  rw [heappop, List.getLast?_eq_getLast heap hne] at h
  dsimp only at h
  split at h <;> simp at h

lemma heappop_coe {heap : List BBNode} {nd : BBNode} {rest : List BBNode}
    (h : heappop heap = some (nd, rest)) : (↑heap : Multiset BBNode) = nd ::ₘ ↑rest := by
  have hne : heap ≠ [] := by rintro rfl; simp [heappop] at h
  rw [heappop, List.getLast?_eq_getLast heap hne] at h
  dsimp only at h
  by_cases he : heap.dropLast.isEmpty
  · rw [if_pos he] at h
    obtain ⟨rfl, rfl⟩ : heap.getLast hne = nd ∧ [] = rest := by
      have := Option.some.inj h
      exact ⟨congrArg Prod.fst this, congrArg Prod.snd this⟩
    have hd : heap.dropLast = [] := List.isEmpty_iff.mp he
    conv_lhs => rw [← List.dropLast_concat_getLast hne, hd]
    simp
  · rw [if_neg he] at h
    have hL : heap.dropLast ≠ [] := by simpa [List.isEmpty_iff] using he
    have hlen : 0 < heap.dropLast.length := List.length_pos.mpr hL
    obtain ⟨hnd, hrest⟩ : heap.dropLast.getD 0 default = nd ∧
        siftupLoop heap.dropLast.length (heap.dropLast.set 0 (heap.getLast hne))
          heap.dropLast.length 0 0 (heap.getLast hne) = rest := by
      have := Option.some.inj h
      exact ⟨congrArg Prod.fst this, congrArg Prod.snd this⟩
    have hsift := siftupLoop_coe heap.dropLast.length
      (heap.dropLast.set 0 (heap.getLast hne)) heap.dropLast.length 0 0
      (heap.getLast hne) (by simpa using hlen) (by simp)
    rw [List.set_set] at hsift
    have hadd := coe_set_add heap.dropLast 0 (heap.getLast hne) hlen
    rw [hnd] at hadd
    calc (↑heap : Multiset BBNode)
        = ↑(heap.dropLast ++ [heap.getLast hne]) := by rw [List.dropLast_concat_getLast hne]
      _ = ↑heap.dropLast + {heap.getLast hne} := by
          rw [← Multiset.coe_singleton, ← Multiset.coe_add]
      _ = ↑(heap.dropLast.set 0 (heap.getLast hne)) + {nd} := hadd.symm
      _ = ↑rest + {nd} := by rw [← hrest, hsift]
      _ = nd ::ₘ ↑rest := by rw [add_comm, Multiset.singleton_add]

lemma heappop_mem {heap : List BBNode} {nd : BBNode} {rest : List BBNode}
    (h : heappop heap = some (nd, rest)) : nd ∈ heap ∧ ∀ x ∈ rest, x ∈ heap := by
  have hc := heappop_coe h
  constructor
  · rw [← Multiset.mem_coe, hc]; exact Multiset.mem_cons_self _ _
  · intro x hx
    rw [← Multiset.mem_coe, hc, Multiset.mem_cons]
    exact Or.inr (Multiset.mem_coe.mpr hx)

lemma measureQ_heappush (n : Nat) (q : List BBNode) (item : BBNode) :
    measureQ n (heappush q item) = 3 ^ (n - item.level) + measureQ n q := by
  unfold measureQ
  rw [heappush_coe, Multiset.map_cons, Multiset.sum_cons]

lemma measureQ_heappop {n : Nat} {q : List BBNode} {nd : BBNode} {rest : List BBNode}
    (h : heappop q = some (nd, rest)) :
    measureQ n q = 3 ^ (n - nd.level) + measureQ n rest := by
  unfold measureQ
  rw [heappop_coe h, Multiset.map_cons, Multiset.sum_cons]

end HRBB

namespace HRBB

/-! ### Subset sums -/

lemma subsetCost_cons (p : Project) (s : List Project) :
    subsetCost (p :: s) = p.cost + subsetCost s := by simp [subsetCost]

lemma subsetValue_cons (p : Project) (s : List Project) :
    subsetValue (p :: s) = p.impact + subsetValue s := by simp [subsetValue]

lemma subsetCost_append (s t : List Project) :
    subsetCost (s ++ t) = subsetCost s + subsetCost t := by simp [subsetCost]

lemma subsetValue_append (s t : List Project) :
    subsetValue (s ++ t) = subsetValue s + subsetValue t := by simp [subsetValue]

lemma subsetCost_nonneg (s : List Project) (h : ∀ p ∈ s, 0 ≤ p.cost) : 0 ≤ subsetCost s := by
  induction s with
  | nil => simp [subsetCost]
  | cons p t ih =>
    rw [subsetCost_cons]
    have := h p (List.mem_cons_self p t)
    have := ih (fun q hq => h q (List.mem_cons_of_mem _ hq))
    linarith

lemma subsetValue_nonneg (s : List Project) (h : ∀ p ∈ s, 0 ≤ p.impact) : 0 ≤ subsetValue s := by
  induction s with
  | nil => simp [subsetValue]
  | cons p t ih =>
    rw [subsetValue_cons]
    have := h p (List.mem_cons_self p t)
    have := ih (fun q hq => h q (List.mem_cons_of_mem _ hq))
    linarith

lemma subsetCost_perm {s t : List Project} (h : s.Perm t) : subsetCost s = subsetCost t := by
  unfold subsetCost; exact (h.map Project.cost).sum_eq

lemma subsetValue_perm {s t : List Project} (h : s.Perm t) : subsetValue s = subsetValue t := by
  unfold subsetValue; exact (h.map Project.impact).sum_eq

/-! ### The bound walk: totality and soundness -/

lemma boundWalk_eq_total (rem : ℚ) (ps : List Project) (hpos : ∀ p ∈ ps, 0 < p.cost) :
    boundWalk rem ps = some (boundWalkT rem ps) := by
  induction ps generalizing rem with
  | nil => rfl
  | cons p rest ih =>
    have hc := hpos p (List.mem_cons_self p rest)
    by_cases h1 : p.cost ≤ rem
    · simp [boundWalk, boundWalkT, h1,
        ih (rem - p.cost) (fun q hq => hpos q (List.mem_cons_of_mem _ hq))]
    · simp [boundWalk, boundWalkT, h1, hc.ne.symm]

lemma boundWalk_isSome (rem : ℚ) (ps : List Project) (h : ∀ p ∈ ps, 0 ≤ p.cost)
    (hrem : 0 ≤ rem) : (boundWalk rem ps).isSome := by
  induction ps generalizing rem with
  | nil => rfl
  | cons p rest ih =>
    have hc := h p (List.mem_cons_self p rest)
    by_cases h1 : p.cost ≤ rem
    · have := ih (rem - p.cost) (fun q hq => h q (List.mem_cons_of_mem _ hq)) (by linarith)
      simpa [boundWalk, h1] using this
    · have hc0 : p.cost ≠ 0 := by intro hz; exact h1 (by rw [hz]; exact hrem)
      simp [boundWalk, h1, hc0]

lemma boundWalkT_zero (ps : List Project) (hpos : ∀ p ∈ ps, 0 < p.cost) :
    boundWalkT 0 ps = 0 := by
  cases ps with
  | nil => rfl
  | cons p rest =>
    have hc := hpos p (List.mem_cons_self p rest)
    simp [boundWalkT, not_le.mpr hc]

lemma boundWalkT_lipschitz (ps : List Project) (E : ℚ) (hpos : ∀ p ∈ ps, 0 < p.cost)
    (hE : ∀ p ∈ ps, p.impact ≤ E * p.cost) (hE0 : 0 ≤ E) :
    ∀ r r' : ℚ, 0 ≤ r' → r' ≤ r → boundWalkT r ps ≤ boundWalkT r' ps + (r - r') * E := by
  induction ps with
  | nil =>
    intro r r' h0 hrr
    have : 0 ≤ (r - r') * E := mul_nonneg (by linarith) hE0
    simpa [boundWalkT] using this
  | cons p rest ih =>
    intro r r' h0 hrr
    have hc := hpos p (List.mem_cons_self p rest)
    have hEp := hE p (List.mem_cons_self p rest)
    have hpos' := fun q hq => hpos q (List.mem_cons_of_mem p hq)
    have hE' := fun q hq => hE q (List.mem_cons_of_mem p hq)
    by_cases h1 : p.cost ≤ r'
    · have h2 : p.cost ≤ r := le_trans h1 hrr
      simp only [boundWalkT, if_pos h1, if_pos h2]
      have h3 := ih hpos' hE' (r - p.cost) (r' - p.cost) (by linarith) (by linarith)
      have h4 : (r - p.cost - (r' - p.cost)) = r - r' := by ring
      rw [h4] at h3
      linarith
    · by_cases h2 : p.cost ≤ r
      · simp only [boundWalkT, if_pos h2, if_neg h1]
        have hT := ih hpos' hE' (r - p.cost) 0 le_rfl (by linarith)
        rw [boundWalkT_zero rest hpos'] at hT
        have h4 : (r - p.cost - 0) = r - p.cost := by ring
        rw [h4] at hT
        have hr'c : r' < p.cost := not_le.mp h1
        have hkey : p.impact + (r - p.cost) * E ≤ p.impact * (r' / p.cost) + (r - r') * E := by
          refine (mul_le_mul_right hc).mp ?_
          have e2 : (p.impact * (r' / p.cost) + (r - r') * E) * p.cost
              = p.impact * r' + (r - r') * E * p.cost := by field_simp
          rw [e2]
          nlinarith [mul_nonneg (sub_nonneg.mpr hr'c.le) (sub_nonneg.mpr hEp)]
        linarith
      · simp only [boundWalkT, if_neg h1, if_neg h2]
        have hrr0 : (0:ℚ) ≤ r - r' := by linarith
        have key : (r - r') * p.impact ≤ (r - r') * (E * p.cost) :=
          mul_le_mul_of_nonneg_left hEp hrr0
        refine (mul_le_mul_right hc).mp ?_
        have e1 : p.impact * (r / p.cost) * p.cost = p.impact * r := by field_simp
        have e2 : (p.impact * (r' / p.cost) + (r - r') * E) * p.cost
            = p.impact * r' + (r - r') * E * p.cost := by field_simp
        rw [e1, e2]
        nlinarith [key]


lemma boundWalkT_sound (ps : List Project) (hpos : ∀ p ∈ ps, 0 < p.cost)
    (hval : ∀ p ∈ ps, 0 ≤ p.impact)
    (hsort : ps.Pairwise (fun a b => b.impact * a.cost ≤ a.impact * b.cost)) :
    ∀ r : ℚ, 0 ≤ r → ∀ R, R.Sublist ps → subsetCost R ≤ r →
      subsetValue R ≤ boundWalkT r ps := by
  induction ps with
  | nil =>
    intro r h0 R hR _
    rw [List.sublist_nil.mp hR]
    simp [subsetValue, boundWalkT]
  | cons p rest ih =>
    intro r h0 R hR hcost
    have hc : 0 < p.cost := hpos p (List.mem_cons_self p rest)
    have hpos' : ∀ q ∈ rest, 0 < q.cost := fun q hq => hpos q (List.mem_cons_of_mem p hq)
    have hval' : ∀ q ∈ rest, 0 ≤ q.impact := fun q hq => hval q (List.mem_cons_of_mem p hq)
    have hsort' := (List.pairwise_cons.mp hsort).2
    have hhead := (List.pairwise_cons.mp hsort).1
    have hE : ∀ q ∈ rest, q.impact ≤ (p.impact / p.cost) * q.cost := by
      intro q hq
      rw [div_mul_eq_mul_div, le_div_iff₀ hc]
      linarith [hhead q hq]
    have hE0 : 0 ≤ p.impact / p.cost := div_nonneg (hval p (List.mem_cons_self p rest)) hc.le
    have ihr := ih hpos' hval' hsort'
    rcases List.sublist_cons_iff.mp hR with hR' | ⟨R', rfl, hR'⟩
    · by_cases h1 : p.cost ≤ r
      · simp only [boundWalkT, if_pos h1]
        have hv := ihr r h0 R hR' hcost
        have hL := boundWalkT_lipschitz rest (p.impact / p.cost) hpos' hE hE0 r (r - p.cost)
          (by linarith) (by linarith)
        have hcc : (r - (r - p.cost)) * (p.impact / p.cost) = p.impact := by field_simp
        rw [hcc] at hL
        linarith
      · simp only [boundWalkT, if_neg h1]
        have hv := ihr r h0 R hR' hcost
        have hL := boundWalkT_lipschitz rest (p.impact / p.cost) hpos' hE hE0 r 0 le_rfl h0
        rw [boundWalkT_zero rest hpos'] at hL
        have e : p.impact * (r / p.cost) = (r - 0) * (p.impact / p.cost) := by ring
        rw [e]
        linarith
    · by_cases h1 : p.cost ≤ r
      · simp only [boundWalkT, if_pos h1]
        rw [subsetValue_cons]
        rw [subsetCost_cons] at hcost
        have := ihr (r - p.cost) (by linarith) R' hR' (by linarith)
        linarith
      · exfalso
        rw [subsetCost_cons] at hcost
        have hnn : 0 ≤ subsetCost R' :=
          subsetCost_nonneg R' (fun q hq => (hpos' q (hR'.subset hq)).le)
        have := not_le.mp h1
        linarith

lemma calculateBound_eq (projects : List Project) (budget : ℚ) (node : BBNode)
    (hpos : ∀ p ∈ projects, 0 < p.cost) :
    calculateBound projects budget node =
      some (node.total_impact +
        boundWalkT (budget - node.total_cost) (projects.drop node.level)) := by
  unfold calculateBound
  rw [boundWalk_eq_total _ _ (fun p hp => hpos p (List.drop_subset _ _ hp))]
  rfl

lemma calculateBound_sound {projects : List Project} {budget : ℚ} {node : BBNode}
    (hpos : ∀ p ∈ projects, 0 < p.cost) (hval : ∀ p ∈ projects, 0 ≤ p.impact)
    (hsort : projects.Pairwise (fun a b => b.impact * a.cost ≤ a.impact * b.cost))
    (hfeas : node.total_cost ≤ budget) :
    ∀ R, R.Sublist (projects.drop node.level) → node.total_cost + subsetCost R ≤ budget →
      node.total_impact + subsetValue R ≤
        node.total_impact + boundWalkT (budget - node.total_cost) (projects.drop node.level) := by
  intro R hR hRf
  have hs := boundWalkT_sound (projects.drop node.level)
    (fun q hq => hpos q (List.drop_subset _ _ hq))
    (fun q hq => hval q (List.drop_subset _ _ hq))
    (hsort.sublist (List.drop_sublist _ _))
    (budget - node.total_cost) (by linarith) R hR (by linarith)
  linarith


/-! ### Sorting, the knapsack optimum and the greedy run -/

lemma sortProjects_perm (ps : List Project) : (sortProjects ps).Perm ps :=
  List.perm_insertionSort effGE ps

lemma sortProjects_sorted (ps : List Project) : (sortProjects ps).Pairwise effGE :=
  List.sorted_insertionSort effGE ps

lemma sortProjects_sorted_ratio (ps : List Project) (hpos : ∀ p ∈ ps, 0 < p.cost)
    (heff : ∀ p ∈ ps, p.efficiency = p.impact / p.cost) :
    (sortProjects ps).Pairwise (fun a b => b.impact * a.cost ≤ a.impact * b.cost) := by
  have hmem : ∀ p ∈ sortProjects ps, p ∈ ps := fun p hp => (sortProjects_perm ps).subset hp
  refine List.Pairwise.imp_of_mem ?_ (sortProjects_sorted ps)
  intro a b ha hb hab
  have hac := hpos a (hmem a ha)
  have hbc := hpos b (hmem b hb)
  have h1 := heff a (hmem a ha)
  have h2 := heff b (hmem b hb)
  unfold effGE at hab
  rw [h1, h2, div_le_div_iff₀ hbc hac] at hab
  linarith

lemma le_foldr_max {x : ℚ} {l : List ℚ} (h : x ∈ l) : x ≤ l.foldr max 0 := by
  induction l with
  | nil => simp at h
  | cons a t ih =>
    rcases List.mem_cons.mp h with rfl | h'
    · exact le_max_left _ _
    · exact le_trans (ih h') (le_max_right _ _)

lemma foldr_max_nonneg (l : List ℚ) : 0 ≤ l.foldr max 0 := by
  induction l with
  | nil => exact le_rfl
  | cons a t ih => exact le_trans ih (le_max_right _ _)

lemma foldr_max_le {l : List ℚ} {v : ℚ} (h0 : 0 ≤ v) (h : ∀ x ∈ l, x ≤ v) :
    l.foldr max 0 ≤ v := by
  induction l with
  | nil => exact h0
  | cons a t ih =>
    exact max_le (h a (List.mem_cons_self a t))
      (ih (fun x hx => h x (List.mem_cons_of_mem a hx)))

lemma foldr_max_mem (l : List ℚ) : l.foldr max 0 = 0 ∨ l.foldr max 0 ∈ l := by
  induction l with
  | nil => exact Or.inl rfl
  | cons a t ih =>
    rcases max_choice a (t.foldr max 0) with h | h
    · exact Or.inr (by rw [List.foldr_cons, h]; exact List.mem_cons_self a t)
    · rcases ih with h0 | hmem
      · exact Or.inl (by rw [List.foldr_cons, h, h0])
      · exact Or.inr (by rw [List.foldr_cons, h]; exact List.mem_cons_of_mem a hmem)

lemma le_knapsackOpt {ps : List Project} {b : ℚ} {S : List Project}
    (hS : S.Sublist ps) (hc : subsetCost S ≤ b) : subsetValue S ≤ knapsackOpt ps b := by
  apply le_foldr_max
  apply List.mem_map_of_mem
  unfold feasibleSubsets
  rw [List.mem_filter]
  exact ⟨List.mem_sublists.mpr hS, by simpa using hc⟩

lemma knapsackOpt_nonneg (ps : List Project) (b : ℚ) : 0 ≤ knapsackOpt ps b :=
  foldr_max_nonneg _

lemma knapsackOpt_le {ps : List Project} {b v : ℚ} (h0 : 0 ≤ v)
    (h : ∀ S, S.Sublist ps → subsetCost S ≤ b → subsetValue S ≤ v) : knapsackOpt ps b ≤ v := by
  apply foldr_max_le h0
  intro x hx
  obtain ⟨S, hSmem, rfl⟩ := List.mem_map.mp hx
  unfold feasibleSubsets at hSmem
  rw [List.mem_filter] at hSmem
  exact h S (List.mem_sublists.mp hSmem.1) (by simpa using hSmem.2)

lemma knapsackOpt_achieved (ps : List Project) (b : ℚ) (hb : 0 ≤ b) :
    ∃ S, S.Sublist ps ∧ subsetCost S ≤ b ∧ subsetValue S = knapsackOpt ps b := by
  rcases foldr_max_mem ((feasibleSubsets ps b).map subsetValue) with h | h
  · refine ⟨[], List.nil_sublist ps, by simpa [subsetCost] using hb, ?_⟩
    unfold knapsackOpt
    rw [h]
    simp [subsetValue]
  · obtain ⟨S, hSmem, hval⟩ := List.mem_map.mp h
    unfold feasibleSubsets at hSmem
    rw [List.mem_filter] at hSmem
    exact ⟨S, List.mem_sublists.mp hSmem.1, by simpa using hSmem.2, hval⟩

lemma knapsackOpt_perm {l l' : List Project} (h : l.Perm l') (b : ℚ) :
    knapsackOpt l b = knapsackOpt l' b := by
  have key : ∀ {x y : List Project}, x.Perm y → knapsackOpt x b ≤ knapsackOpt y b := by
    intro x y hxy
    apply knapsackOpt_le (knapsackOpt_nonneg y b)
    intro S hS hc
    obtain ⟨T, hTS, hT⟩ := (hS.subperm).trans hxy.subperm
    calc subsetValue S = subsetValue T := (subsetValue_perm hTS).symm
      _ ≤ knapsackOpt y b := le_knapsackOpt hT (by rw [subsetCost_perm hTS]; exact hc)
  exact le_antisymm (key h) (key h.symm)

lemma knapsackOpt_mono {ps : List Project} {b1 b2 : ℚ} (h : b1 ≤ b2) :
    knapsackOpt ps b1 ≤ knapsackOpt ps b2 := by
  apply knapsackOpt_le (knapsackOpt_nonneg _ _)
  intro S hS hc
  exact le_knapsackOpt hS (le_trans hc h)

lemma greedyRun_spec (b : ℚ) : ∀ (ps : List Project) (c v : ℚ),
    (greedyRun b ps c v).1.Sublist ps ∧
    (greedyRun b ps c v).2.1 = c + subsetCost (greedyRun b ps c v).1 ∧
    (greedyRun b ps c v).2.2 = v + subsetValue (greedyRun b ps c v).1 ∧
    (c ≤ b → (greedyRun b ps c v).2.1 ≤ b) := by
  intro ps
  induction ps with
  | nil =>
    intro c v
    refine ⟨List.Sublist.refl _, by simp [greedyRun, subsetCost], by
      simp [greedyRun, subsetValue], fun h => by simpa [greedyRun] using h⟩
  | cons p rest ih =>
    intro c v
    by_cases h1 : c + p.cost ≤ b
    · have h := ih (c + p.cost) (v + p.impact)
      simp only [greedyRun, if_pos h1]
      refine ⟨List.Sublist.cons₂ p h.1, ?_, ?_, fun _ => h.2.2.2 h1⟩
      · rw [subsetCost_cons, h.2.1]; ring
      · rw [subsetValue_cons, h.2.2.1]; ring
    · have h := ih c v
      simp only [greedyRun, if_neg h1]
      exact ⟨List.Sublist.cons p h.1, h.2.1, h.2.2.1, h.2.2.2⟩

lemma greedy_le_opt (input : List Project) (b t0 t1 : ℚ) (hb : 0 < b) :
    (greedyHeuristic input b t0 t1).solution.total_impact ≤ knapsackOpt input b := by
  unfold greedyHeuristic
  dsimp only
  have h := greedyRun_spec b (sortProjects input) 0 0
  rw [h.2.2.1]
  have hcost := h.2.2.2 hb.le
  rw [h.2.1] at hcost
  have hle := le_knapsackOpt (b := b) h.1 (by linarith)
  rw [knapsackOpt_perm (sortProjects_perm input)] at hle
  linarith


/-! ### Bookkeeping lemmas for one loop iteration -/

lemma shouldPrune_queue (b : ℚ) (st : BBState) (nd : BBNode) :
    (shouldPrune b st nd).2.2.queue = st.queue := by
  unfold shouldPrune; split_ifs <;> rfl

lemma shouldPrune_best (b : ℚ) (st : BBState) (nd : BBNode) :
    (shouldPrune b st nd).2.2.best = st.best := by
  unfold shouldPrune; split_ifs <;> rfl

lemma shouldPrune_bestValue (b : ℚ) (st : BBState) (nd : BBNode) :
    (shouldPrune b st nd).2.2.bestValue = st.bestValue := by
  unfold shouldPrune; split_ifs <;> rfl

lemma shouldPrune_nodesExpanded (b : ℚ) (st : BBState) (nd : BBNode) :
    (shouldPrune b st nd).2.2.nodesExpanded = st.nodesExpanded := by
  unfold shouldPrune; split_ifs <;> rfl

lemma shouldPrune_maxDepth (b : ℚ) (st : BBState) (nd : BBNode) :
    (shouldPrune b st nd).2.2.maxDepth = st.maxDepth := by
  unfold shouldPrune; split_ifs <;> rfl

lemma shouldPrune_false_iff (b : ℚ) (st : BBState) (nd : BBNode) :
    (shouldPrune b st nd).1 = false ↔ (nd.total_cost ≤ b ∧ st.bestValue < nd.bound) := by
  unfold shouldPrune
  split_ifs with h1 h2
  · refine iff_of_false (by simp) (fun hcon => ?_)
    rw [isFeasible] at h1
    simp [hcon.1] at h1
  · exact iff_of_false (by simp) (fun hcon => absurd hcon.2 (not_lt.mpr h2))
  · refine iff_of_true rfl ⟨?_, not_le.mp h2⟩
    rw [isFeasible] at h1
    simpa using h1

lemma updateBest_queue (b : ℚ) (st : BBState) (nd : BBNode) :
    (updateBestSolution b st nd).queue = st.queue := by
  unfold updateBestSolution; split_ifs <;> rfl

lemma updateBest_le (b : ℚ) (st : BBState) (nd : BBNode) :
    st.bestValue ≤ (updateBestSolution b st nd).bestValue := by
  unfold updateBestSolution
  split_ifs with h
  · exact (of_decide_eq_true ((Bool.and_eq_true _ _).mp h).2).le
  · exact le_rfl

lemma updateBest_cases (b : ℚ) (st : BBState) (nd : BBNode) :
    (updateBestSolution b st nd = { st with best := some nd, bestValue := nd.total_impact } ∧
      nd.total_cost ≤ b ∧ st.bestValue < nd.total_impact) ∨
    (updateBestSolution b st nd = st ∧ (¬ nd.total_cost ≤ b ∨ nd.total_impact ≤ st.bestValue)) := by
  unfold updateBestSolution
  split_ifs with h
  · left
    have h2 := (Bool.and_eq_true _ _).mp h
    refine ⟨rfl, ?_, of_decide_eq_true h2.2⟩
    have := h2.1
    rw [isFeasible] at this
    simpa using this
  · right
    refine ⟨rfl, ?_⟩
    by_contra hcon
    push_neg at hcon
    apply h
    rw [Bool.and_eq_true]
    constructor
    · rw [isFeasible]; simpa using hcon.1
    · exact decide_eq_true hcon.2

/-! ### Step lemmas for `solveLoop` -/

lemma solveLoop_step_empty {spr : List Project} {b : ℚ} {n : Nat} {st : BBState}
    (hpop : heappop st.queue = none) : solveLoop spr b (n + 1) st = some st := by
  rw [solveLoop, hpop]

lemma solveLoop_step_pruned {spr : List Project} {b : ℚ} {n : Nat} {st : BBState}
    {cur : BBNode} {q1 : List BBNode}
    (hpop : heappop st.queue = some (cur, q1))
    (hpr : (shouldPrune b (poppedState st cur q1) cur).1 = true) :
    solveLoop spr b (n + 1) st =
      solveLoop spr b n (shouldPrune b (poppedState st cur q1) cur).2.2 := by
  rw [solveLoop, hpop]
  simp only [hpr, if_true]

lemma solveLoop_step_leaf {spr : List Project} {b : ℚ} {n : Nat} {st : BBState}
    {cur : BBNode} {q1 : List BBNode}
    (hpop : heappop st.queue = some (cur, q1))
    (hpr : (shouldPrune b (poppedState st cur q1) cur).1 = false)
    (hlv : cur.level = spr.length) :
    solveLoop spr b (n + 1) st =
      solveLoop spr b n
        (updateBestSolution b (shouldPrune b (poppedState st cur q1) cur).2.2 cur) := by
  rw [solveLoop, hpop]
  simp only [hpr, Bool.false_eq_true, if_false, hlv, if_true]

lemma solveLoop_step_expand {spr : List Project} {b : ℚ} {n : Nat} {st : BBState}
    {cur : BBNode} {q1 : List BBNode} {project : Project} {st4 : BBState}
    (hpop : heappop st.queue = some (cur, q1))
    (hpr : (shouldPrune b (poppedState st cur q1) cur).1 = false)
    (hlv : cur.level ≠ spr.length)
    (hget : spr[cur.level]? = some project)
    (hex : expandStep spr b (shouldPrune b (poppedState st cur q1) cur).2.2 cur project =
      some st4) :
    solveLoop spr b (n + 1) st = solveLoop spr b n st4 := by
  rw [solveLoop, hpop]
  simp only [hpr, Bool.false_eq_true, if_false, hlv, hget, hex]


lemma pruneOrPush_spec (budget : ℚ) (s : BBState) (child : BBNode) :
    (pruneOrPush budget s child).best = s.best ∧
    (pruneOrPush budget s child).bestValue = s.bestValue ∧
    (pruneOrPush budget s child).nodesExpanded = s.nodesExpanded ∧
    (pruneOrPush budget s child).maxDepth = s.maxDepth ∧
    ∃ push : Bool,
      (↑(pruneOrPush budget s child).queue : Multiset BBNode) =
        ↑s.queue + (if push then {child} else 0) ∧
      (push = true ↔ (child.total_cost ≤ budget ∧ s.bestValue < child.bound)) := by
  unfold pruneOrPush
  cases hpr : (shouldPrune budget s child).1 with
  | false =>
    simp only [hpr, Bool.false_eq_true, if_false]
    refine ⟨shouldPrune_best _ _ _, shouldPrune_bestValue _ _ _,
      shouldPrune_nodesExpanded _ _ _, shouldPrune_maxDepth _ _ _, true, ?_, ?_⟩
    · rw [heappush_coe, shouldPrune_queue, if_pos rfl, add_comm, Multiset.singleton_add]
    · simpa using (shouldPrune_false_iff budget s child).mp hpr
  | true =>
    simp only [hpr, if_true]
    refine ⟨shouldPrune_best _ _ _, shouldPrune_bestValue _ _ _,
      shouldPrune_nodesExpanded _ _ _, shouldPrune_maxDepth _ _ _, false, ?_, ?_⟩
    · simp [shouldPrune_queue]
    · simp only [Bool.false_eq_true, false_iff]
      intro hcon
      have hfalse := (shouldPrune_false_iff budget s child).mpr hcon
      rw [hpr] at hfalse
      cases hfalse

lemma expandStep_spec {spr : List Project} {b : ℚ} (st2 : BBState) (cur : BBNode)
    (project : Project) (hpos : ∀ p ∈ spr, 0 < p.cost) :
    ∃ st4, expandStep spr b st2 cur project = some st4 ∧
      st4.best = st2.best ∧ st4.bestValue = st2.bestValue ∧
      st4.nodesExpanded = st2.nodesExpanded ∧ st4.maxDepth = st2.maxDepth ∧
      ∃ pushL pushR : Bool,
        (↑st4.queue : Multiset BBNode) = ↑st2.queue +
          (if pushL then {leftNodeOf spr b cur project} else 0) +
          (if pushR then {rightNodeOf spr b cur} else 0) ∧
        (pushL = true ↔ ((leftNodeOf spr b cur project).total_cost ≤ b ∧
          st2.bestValue < (leftNodeOf spr b cur project).bound)) ∧
        (pushR = true ↔ ((rightNodeOf spr b cur).total_cost ≤ b ∧
          st2.bestValue < (rightNodeOf spr b cur).bound)) := by
  unfold expandStep
  dsimp only
  rw [calculateBound_eq _ _ _ hpos]
  dsimp only
  rw [calculateBound_eq _ _ _ hpos]
  dsimp only
  refine ⟨_, rfl, ?_⟩
  have hL := pruneOrPush_spec b st2 (leftNodeOf spr b cur project)
  have hR := pruneOrPush_spec b (pruneOrPush b st2 (leftNodeOf spr b cur project))
    (rightNodeOf spr b cur)
  obtain ⟨hb1, hv1, hn1, hm1, pushL, hq1, hplIff⟩ := hL
  obtain ⟨hb2, hv2, hn2, hm2, pushR, hq2, hprIff⟩ := hR
  exact ⟨hb2.trans hb1, hv2.trans hv1, hn2.trans hn1, hm2.trans hm1,
    pushL, pushR, hq2.trans (by rw [hq1]), hplIff, by rwa [hv1] at hprIff⟩


@[simp] lemma poppedState_queue (st : BBState) (cur : BBNode) (q1 : List BBNode) :
    (poppedState st cur q1).queue = q1 := rfl

@[simp] lemma poppedState_best (st : BBState) (cur : BBNode) (q1 : List BBNode) :
    (poppedState st cur q1).best = st.best := rfl

@[simp] lemma poppedState_bestValue (st : BBState) (cur : BBNode) (q1 : List BBNode) :
    (poppedState st cur q1).bestValue = st.bestValue := rfl

lemma take_sublist_take_succ (spr : List Project) (k : Nat) :
    (spr.take k).Sublist (spr.take (k + 1)) := by
  rw [List.take_succ]
  exact List.sublist_append_left _ _

lemma take_succ_of_lt {spr : List Project} {k : Nat} (h : k < spr.length) :
    spr.take (k + 1) = spr.take k ++ [spr.get ⟨k, h⟩] := by
  rw [List.take_succ, List.getElem?_eq_getElem h]
  rfl

lemma measureQ_le_of_coe {n : Nat} {q q1 : List BBNode} {cur : BBNode} {project : Project}
    {spr : List Project} {b : ℚ} {pushL pushR : Bool}
    (h : (↑q : Multiset BBNode) = ↑q1 + (if pushL then {leftNodeOf spr b cur project} else 0) +
      (if pushR then {rightNodeOf spr b cur} else 0)) :
    measureQ n q ≤ measureQ n q1 + 2 * 3 ^ (n - (cur.level + 1)) := by
  unfold measureQ
  rw [h]
  cases pushL <;> cases pushR <;>
    simp [Multiset.map_singleton, Multiset.sum_add, leftNodeOf, rightNodeOf] <;> omega

lemma one_le_three_pow (k : Nat) : 1 ≤ 3 ^ k := Nat.one_le_pow k 3 (by norm_num)

lemma three_pow_level {len lvl : Nat} (h : lvl < len) :
    3 ^ (len - lvl) = 3 ^ (len - (lvl + 1)) * 3 := by
  have he : len - lvl = (len - (lvl + 1)) + 1 := by omega
  rw [he, pow_succ]

/-! ### The no-incumbent run: instances whose feasible subsets all have
value at most zero never set `best_solution`. -/

lemma solveLoop_noSolution (spr : List Project) (b : ℚ)
    (hpos : ∀ p ∈ spr, 0 < p.cost)
    (hzero : ∀ P, P.Sublist spr → subsetCost P ≤ b → subsetValue P ≤ 0) :
    ∀ fuel st, measureQ spr.length st.queue < fuel → NoSolInv spr b st →
      ∃ stF, solveLoop spr b fuel st = some stF ∧ stF.best = none := by
  intro fuel
  induction fuel with
  | zero => intro st hm _; exact absurd hm (Nat.not_lt_zero _)
  | succ n ih =>
    intro st hm inv
    cases hpop : heappop st.queue with
    | none => exact ⟨st, solveLoop_step_empty hpop, inv.bestIsNone⟩
    | some res =>
      obtain ⟨cur, q1⟩ := res
      have hcur_mem : cur ∈ st.queue := (heappop_mem hpop).1
      have hq1mem : ∀ x ∈ q1, x ∈ st.queue := (heappop_mem hpop).2
      have hmq := measureQ_heappop (n := spr.length) hpop
      have hmlt : measureQ spr.length q1 < n := by
        have h1 := one_le_three_pow (spr.length - cur.level)
        omega
      have hq1inv : ∀ s2 : BBState, s2.queue = q1 → s2.best = st.best →
          s2.bestValue = st.bestValue → NoSolInv spr b s2 := by
        intro s2 hq hb hv
        exact ⟨fun nd hnd => inv.qlevel nd (hq1mem nd (hq ▸ hnd)),
          fun nd hnd => inv.qsums nd (hq1mem nd (hq ▸ hnd)),
          hb.trans inv.bestIsNone, hv.trans inv.bestZero⟩
      cases hpr : (shouldPrune b (poppedState st cur q1) cur).1 with
      | true =>
        have hinv2 : NoSolInv spr b (shouldPrune b (poppedState st cur q1) cur).2.2 :=
          hq1inv _ (by rw [shouldPrune_queue]; rfl) (by rw [shouldPrune_best]; rfl)
            (by rw [shouldPrune_bestValue]; rfl)
        have hm2 : measureQ spr.length (shouldPrune b (poppedState st cur q1) cur).2.2.queue < n := by
          rw [shouldPrune_queue]
          exact hmlt
        obtain ⟨stF, hF, hbF⟩ := ih _ hm2 hinv2
        exact ⟨stF, (solveLoop_step_pruned hpop hpr).trans hF, hbF⟩
      | false =>
        by_cases hlv : cur.level = spr.length
        · have hno : updateBestSolution b (shouldPrune b (poppedState st cur q1) cur).2.2 cur =
              (shouldPrune b (poppedState st cur q1) cur).2.2 := by
            rcases updateBest_cases b (shouldPrune b (poppedState st cur q1) cur).2.2 cur with
              ⟨_, hfeas, hlt⟩ | ⟨heq, _⟩
            · exfalso
              obtain ⟨P, hP, hPc, hPv⟩ := inv.qsums cur hcur_mem
              rw [shouldPrune_bestValue, poppedState_bestValue, inv.bestZero] at hlt
              have hPspr : P.Sublist spr := hP.trans (List.take_sublist _ _)
              have hle := hzero P hPspr (by rw [← hPc]; exact hfeas)
              rw [← hPv] at hle
              linarith
            · exact heq
          have hinv2 : NoSolInv spr b (shouldPrune b (poppedState st cur q1) cur).2.2 :=
            hq1inv _ (by rw [shouldPrune_queue]; rfl) (by rw [shouldPrune_best]; rfl)
              (by rw [shouldPrune_bestValue]; rfl)
          have hm2 : measureQ spr.length (shouldPrune b (poppedState st cur q1) cur).2.2.queue < n := by
            rw [shouldPrune_queue]
            exact hmlt
          obtain ⟨stF, hF, hbF⟩ := ih _ hm2 hinv2
          refine ⟨stF, (solveLoop_step_leaf hpop hpr hlv).trans ?_, hbF⟩
          rw [hno]
          exact hF
        · have hlt2 : cur.level < spr.length := lt_of_le_of_ne (inv.qlevel cur hcur_mem) hlv
          have hget : spr[cur.level]? = some (spr.get ⟨cur.level, hlt2⟩) :=
            List.getElem?_eq_getElem hlt2
          obtain ⟨st4, hex, hb4, hv4, _, _, pushL, pushR, hq4, hplIff, hprIff⟩ :=
            expandStep_spec (shouldPrune b (poppedState st cur q1) cur).2.2 cur
              (spr.get ⟨cur.level, hlt2⟩) hpos
          rw [shouldPrune_queue, poppedState_queue] at hq4
          obtain ⟨P, hP, hPc, hPv⟩ := inv.qsums cur hcur_mem
          have hmem4 : ∀ x ∈ st4.queue, x ∈ q1 ∨
              x = leftNodeOf spr b cur (spr.get ⟨cur.level, hlt2⟩) ∨
              x = rightNodeOf spr b cur := by
            intro x hx
            have hxm : x ∈ (↑st4.queue : Multiset BBNode) := Multiset.mem_coe.mpr hx
            rw [hq4] at hxm
            rcases Multiset.mem_add.mp hxm with hxm | hxm
            · rcases Multiset.mem_add.mp hxm with hxm | hxm
              · exact Or.inl (Multiset.mem_coe.mp hxm)
              · cases pushL
                · simp at hxm
                · exact Or.inr (Or.inl (by simpa using hxm))
            · cases pushR
              · simp at hxm
              · exact Or.inr (Or.inr (by simpa using hxm))
          have hinv4 : NoSolInv spr b st4 := by
            refine ⟨?_, ?_, ?_, ?_⟩
            · intro nd hnd
              rcases hmem4 nd hnd with h | h | h
              · exact inv.qlevel nd (hq1mem nd h)
              · rw [h]; show cur.level + 1 ≤ spr.length; omega
              · rw [h]; show cur.level + 1 ≤ spr.length; omega
            · intro nd hnd
              rcases hmem4 nd hnd with h | h | h
              · exact inv.qsums nd (hq1mem nd h)
              · refine ⟨P ++ [spr.get ⟨cur.level, hlt2⟩], ?_, ?_, ?_⟩
                · rw [h]
                  show (P ++ [spr.get ⟨cur.level, hlt2⟩]).Sublist (spr.take (cur.level + 1))
                  rw [take_succ_of_lt hlt2]
                  exact hP.append (List.Sublist.refl _)
                · rw [h, subsetCost_append]
                  show cur.total_cost + (spr.get ⟨cur.level, hlt2⟩).cost = _
                  rw [hPc]
                  simp [subsetCost]
                · rw [h, subsetValue_append]
                  show cur.total_impact + (spr.get ⟨cur.level, hlt2⟩).impact = _
                  rw [hPv]
                  simp [subsetValue]
              · refine ⟨P, ?_, ?_, ?_⟩
                · rw [h]
                  exact hP.trans (take_sublist_take_succ spr cur.level)
                · rw [h]; exact hPc
                · rw [h]; exact hPv
            · rw [hb4, shouldPrune_best, poppedState_best]; exact inv.bestIsNone
            · rw [hv4, shouldPrune_bestValue, poppedState_bestValue]; exact inv.bestZero
          have hm4 : measureQ spr.length st4.queue < n := by
            have hle := measureQ_le_of_coe (n := spr.length) hq4
            have h3 := three_pow_level hlt2
            omega
          obtain ⟨stF, hF, hbF⟩ := ih st4 hm4 hinv4
          exact ⟨stF, (solveLoop_step_expand hpop hpr hlv hget hex).trans hF, hbF⟩


lemma shouldPrune_true_bound {b : ℚ} {st : BBState} {nd : BBNode}
    (h : (shouldPrune b st nd).1 = true) (hfeas : nd.total_cost ≤ b) :
    nd.bound ≤ st.bestValue := by
  by_contra hcon
  have := (shouldPrune_false_iff b st nd).mpr ⟨hfeas, not_le.mp hcon⟩
  rw [h] at this
  cases this

/-! ### The main loop invariant is preserved and the loop drains the
frontier. -/

theorem solveLoop_main (spr : List Project) (b : ℚ) (hb : 0 < b)
    (hpos : ∀ p ∈ spr, 0 < p.cost) (hval : ∀ p ∈ spr, 0 ≤ p.impact)
    (hsort : spr.Pairwise (fun a c => c.impact * a.cost ≤ a.impact * c.cost)) :
    ∀ fuel st, measureQ spr.length st.queue < fuel → LoopInv spr b st →
      ∃ stF, solveLoop spr b fuel st = some stF ∧ LoopInv spr b stF ∧ stF.queue = [] := by
  intro fuel
  induction fuel with
  | zero => intro st hm _; exact absurd hm (Nat.not_lt_zero _)
  | succ n ih =>
    intro st hm inv
    cases hpop : heappop st.queue with
    | none =>
      exact ⟨st, solveLoop_step_empty hpop, inv, eq_nil_of_heappop_none _ hpop⟩
    | some res =>
      obtain ⟨cur, q1⟩ := res
      have hcur_mem : cur ∈ st.queue := (heappop_mem hpop).1
      have hq1mem : ∀ x ∈ q1, x ∈ st.queue := (heappop_mem hpop).2
      have hmq := measureQ_heappop (n := spr.length) hpop
      have hmlt : measureQ spr.length q1 < n := by
        have h1 := one_le_three_pow (spr.length - cur.level)
        omega
      have hfeas_cur : cur.total_cost ≤ b := inv.qfeas cur hcur_mem
      obtain ⟨P, hP, hPc, hPv⟩ := inv.qsums cur hcur_mem
      cases hpr : (shouldPrune b (poppedState st cur q1) cur).1 with
      | true =>
        have hbound_cur : cur.bound ≤ st.bestValue := by
          have := shouldPrune_true_bound hpr (by simpa using hfeas_cur)
          simpa using this
        have hinv2 : LoopInv spr b (shouldPrune b (poppedState st cur q1) cur).2.2 := by
          constructor
          case qlevel =>
            rw [shouldPrune_queue, poppedState_queue]
            exact fun nd hnd => inv.qlevel nd (hq1mem nd hnd)
          case qfeas =>
            rw [shouldPrune_queue, poppedState_queue]
            exact fun nd hnd => inv.qfeas nd (hq1mem nd hnd)
          case qsums =>
            rw [shouldPrune_queue, poppedState_queue]
            exact fun nd hnd => inv.qsums nd (hq1mem nd hnd)
          case qbound =>
            rw [shouldPrune_queue, poppedState_queue]
            exact fun nd hnd => inv.qbound nd (hq1mem nd hnd)
          case bestNonneg =>
            rw [shouldPrune_bestValue, poppedState_bestValue]; exact inv.bestNonneg
          case bestNone =>
            rw [shouldPrune_bestValue, shouldPrune_best, poppedState_bestValue, poppedState_best]
            exact inv.bestNone
          case bestSome =>
            rw [shouldPrune_bestValue, shouldPrune_best, poppedState_bestValue, poppedState_best]
            exact inv.bestSome
          case covered =>
            rw [shouldPrune_queue, shouldPrune_bestValue, poppedState_queue, poppedState_bestValue]
            intro S hS hSc
            rcases inv.covered S hS hSc with hdom | ⟨nd, hndmem, R, hR, hRv, hRc⟩
            · exact Or.inl hdom
            · have : nd ∈ (↑st.queue : Multiset BBNode) := Multiset.mem_coe.mpr hndmem
              rw [heappop_coe hpop] at this
              rcases Multiset.mem_cons.mp this with rfl | hnd1
              · left
                calc subsetValue S = nd.total_impact + subsetValue R := hRv
                  _ ≤ nd.bound := inv.qbound nd hndmem R hR (by rw [← hRc]; exact hSc)
                  _ ≤ st.bestValue := hbound_cur
              · exact Or.inr ⟨nd, Multiset.mem_coe.mp hnd1, R, hR, hRv, hRc⟩
        have hm2 : measureQ spr.length (shouldPrune b (poppedState st cur q1) cur).2.2.queue < n := by
          rw [shouldPrune_queue, poppedState_queue]
          exact hmlt
        obtain ⟨stF, hF, hinvF, hqF⟩ := ih _ hm2 hinv2
        exact ⟨stF, (solveLoop_step_pruned hpop hpr).trans hF, hinvF, hqF⟩
      | false =>
        by_cases hlv : cur.level = spr.length
        · -- leaf
          have hq' : (updateBestSolution b (shouldPrune b (poppedState st cur q1) cur).2.2
              cur).queue = q1 := by
            rw [updateBest_queue, shouldPrune_queue, poppedState_queue]
          have hbv2 : (shouldPrune b (poppedState st cur q1) cur).2.2.bestValue = st.bestValue := by
            rw [shouldPrune_bestValue, poppedState_bestValue]
          have hbb2 : (shouldPrune b (poppedState st cur q1) cur).2.2.best = st.best := by
            rw [shouldPrune_best, poppedState_best]
          have hinv2 : LoopInv spr b
              (updateBestSolution b (shouldPrune b (poppedState st cur q1) cur).2.2 cur) := by
            rcases updateBest_cases b (shouldPrune b (poppedState st cur q1) cur).2.2 cur with
              ⟨hup, hfeas2, hlt⟩ | ⟨hup, hreason⟩
            · -- incumbent updated to cur
              rw [hbv2] at hlt
              have hbv' : (updateBestSolution b (shouldPrune b (poppedState st cur q1) cur).2.2
                  cur).bestValue = cur.total_impact := by rw [hup]
              have hbest' : (updateBestSolution b (shouldPrune b (poppedState st cur q1) cur).2.2
                  cur).best = some cur := by rw [hup]
              have hPspr : P.Sublist spr := by
                rw [hlv, List.take_length] at hP
                exact hP
              constructor
              case qlevel =>
                rw [hq']
                exact fun nd hnd => inv.qlevel nd (hq1mem nd hnd)
              case qfeas =>
                rw [hq']
                exact fun nd hnd => inv.qfeas nd (hq1mem nd hnd)
              case qsums =>
                rw [hq']
                exact fun nd hnd => inv.qsums nd (hq1mem nd hnd)
              case qbound =>
                rw [hq']
                exact fun nd hnd => inv.qbound nd (hq1mem nd hnd)
              case bestNonneg =>
                rw [hbv']
                exact le_of_lt (lt_of_le_of_lt inv.bestNonneg hlt)
              case bestNone =>
                rw [hbest']
                intro h
                cases h
              case bestSome =>
                rw [hbest', hbv']
                intro bn hbn
                obtain rfl : cur = bn := Option.some.inj hbn
                refine ⟨lt_of_le_of_lt inv.bestNonneg hlt, rfl, hfeas2, P, hPspr, ?_, hPv.symm⟩
                rw [← hPc]
                exact hfeas2
              case covered =>
                rw [hq', hbv']
                intro S hS hScost
                rcases inv.covered S hS hScost with hdom | ⟨nd, hndmem, R, hR, hRv, hRc⟩
                · exact Or.inl (le_trans hdom hlt.le)
                · have hin : nd ∈ (↑st.queue : Multiset BBNode) := Multiset.mem_coe.mpr hndmem
                  rw [heappop_coe hpop] at hin
                  rcases Multiset.mem_cons.mp hin with rfl | hnd1
                  · left
                    rw [hlv, List.drop_length] at hR
                    rw [List.sublist_nil.mp hR] at hRv
                    rw [hRv]
                    simp [subsetValue]
                  · exact Or.inr ⟨nd, Multiset.mem_coe.mp hnd1, R, hR, hRv, hRc⟩
            · -- incumbent unchanged
              rw [hup]
              constructor
              case qlevel =>
                rw [shouldPrune_queue, poppedState_queue]
                exact fun nd hnd => inv.qlevel nd (hq1mem nd hnd)
              case qfeas =>
                rw [shouldPrune_queue, poppedState_queue]
                exact fun nd hnd => inv.qfeas nd (hq1mem nd hnd)
              case qsums =>
                rw [shouldPrune_queue, poppedState_queue]
                exact fun nd hnd => inv.qsums nd (hq1mem nd hnd)
              case qbound =>
                rw [shouldPrune_queue, poppedState_queue]
                exact fun nd hnd => inv.qbound nd (hq1mem nd hnd)
              case bestNonneg =>
                rw [hbv2]
                exact inv.bestNonneg
              case bestNone =>
                rw [hbv2, hbb2]
                exact inv.bestNone
              case bestSome =>
                rw [hbv2, hbb2]
                exact inv.bestSome
              case covered =>
                rw [shouldPrune_queue, poppedState_queue, hbv2]
                intro S hS hScost
                rcases inv.covered S hS hScost with hdom | ⟨nd, hndmem, R, hR, hRv, hRc⟩
                · exact Or.inl hdom
                · have hin : nd ∈ (↑st.queue : Multiset BBNode) := Multiset.mem_coe.mpr hndmem
                  rw [heappop_coe hpop] at hin
                  rcases Multiset.mem_cons.mp hin with rfl | hnd1
                  · left
                    rw [hlv, List.drop_length] at hR
                    rw [List.sublist_nil.mp hR] at hRv hRc
                    have h0v : subsetValue ([] : List Project) = 0 := rfl
                    have h0c : subsetCost ([] : List Project) = 0 := rfl
                    rw [h0v, add_zero] at hRv
                    rw [h0c, add_zero] at hRc
                    rcases hreason with hnf | hle
                    · exact absurd (by rw [hRc] at hScost; exact hScost) hnf
                    · rw [hbv2] at hle
                      rw [hRv]
                      exact hle
                  · exact Or.inr ⟨nd, Multiset.mem_coe.mp hnd1, R, hR, hRv, hRc⟩
          have hm2 : measureQ spr.length
              (updateBestSolution b (shouldPrune b (poppedState st cur q1) cur).2.2 cur).queue
              < n := by
            rw [hq']
            exact hmlt
          obtain ⟨stF, hF, hinvF, hqF⟩ := ih _ hm2 hinv2
          exact ⟨stF, (solveLoop_step_leaf hpop hpr hlv).trans hF, hinvF, hqF⟩
        · -- expand
          have hlt2 : cur.level < spr.length := lt_of_le_of_ne (inv.qlevel cur hcur_mem) hlv
          have hget : spr[cur.level]? = some (spr.get ⟨cur.level, hlt2⟩) :=
            List.getElem?_eq_getElem hlt2
          obtain ⟨st4, hex, hb4, hv4, _, _, pushL, pushR, hq4, hplIff, hprIff⟩ :=
            expandStep_spec (shouldPrune b (poppedState st cur q1) cur).2.2 cur
              (spr.get ⟨cur.level, hlt2⟩) hpos
          rw [shouldPrune_queue, poppedState_queue] at hq4
          rw [shouldPrune_bestValue, poppedState_bestValue] at hplIff hprIff
          have hb4' : st4.best = st.best := by rw [hb4, shouldPrune_best, poppedState_best]
          have hv4' : st4.bestValue = st.bestValue := by
            rw [hv4, shouldPrune_bestValue, poppedState_bestValue]
          have hdropc : spr.drop cur.level =
              spr.get ⟨cur.level, hlt2⟩ :: spr.drop (cur.level + 1) :=
            List.drop_eq_getElem_cons hlt2
          have hposD : ∀ q ∈ spr.drop (cur.level + 1), 0 < q.cost :=
            fun q hq => hpos q (List.drop_subset _ _ hq)
          have hvalD : ∀ q ∈ spr.drop (cur.level + 1), 0 ≤ q.impact :=
            fun q hq => hval q (List.drop_subset _ _ hq)
          have hsortD := hsort.sublist (List.drop_sublist (cur.level + 1) spr)
          have hsound : ∀ c : ℚ, c ≤ b → ∀ R, R.Sublist (spr.drop (cur.level + 1)) →
              c + subsetCost R ≤ b →
              subsetValue R ≤ boundWalkT (b - c) (spr.drop (cur.level + 1)) :=
            fun c hc R hR ht =>
              boundWalkT_sound _ hposD hvalD hsortD _ (by linarith) R hR (by linarith)
          have hmem4 : ∀ x ∈ st4.queue, x ∈ q1 ∨
              (pushL = true ∧ x = leftNodeOf spr b cur (spr.get ⟨cur.level, hlt2⟩)) ∨
              (pushR = true ∧ x = rightNodeOf spr b cur) := by
            intro x hx
            have hxm : x ∈ (↑st4.queue : Multiset BBNode) := Multiset.mem_coe.mpr hx
            rw [hq4] at hxm
            rcases Multiset.mem_add.mp hxm with hxm | hxm
            · rcases Multiset.mem_add.mp hxm with hxm | hxm
              · exact Or.inl (Multiset.mem_coe.mp hxm)
              · cases hpl2 : pushL
                · rw [hpl2] at hxm; simp at hxm
                · rw [hpl2] at hxm; exact Or.inr (Or.inl ⟨rfl, by simpa using hxm⟩)
            · cases hpr2 : pushR
              · rw [hpr2] at hxm; simp at hxm
              · rw [hpr2] at hxm; exact Or.inr (Or.inr ⟨rfl, by simpa using hxm⟩)
          have hq1_sub : ∀ x ∈ q1, x ∈ st4.queue := by
            intro x hx
            rw [← Multiset.mem_coe, hq4]
            exact Multiset.mem_add.mpr
              (Or.inl (Multiset.mem_add.mpr (Or.inl (Multiset.mem_coe.mpr hx))))
          have hpushL_mem : pushL = true →
              leftNodeOf spr b cur (spr.get ⟨cur.level, hlt2⟩) ∈ st4.queue := by
            intro hpl2
            rw [← Multiset.mem_coe, hq4, hpl2]
            exact Multiset.mem_add.mpr (Or.inl (Multiset.mem_add.mpr (Or.inr (by simp))))
          have hpushR_mem : pushR = true → rightNodeOf spr b cur ∈ st4.queue := by
            intro hpr2
            rw [← Multiset.mem_coe, hq4, hpr2]
            exact Multiset.mem_add.mpr (Or.inr (by simp))
          have hinv4 : LoopInv spr b st4 := by
            constructor
            case qlevel =>
              intro nd hnd
              rcases hmem4 nd hnd with h | ⟨_, rfl⟩ | ⟨_, rfl⟩
              · exact inv.qlevel nd (hq1mem nd h)
              · show cur.level + 1 ≤ spr.length
                omega
              · show cur.level + 1 ≤ spr.length
                omega
            case qfeas =>
              intro nd hnd
              rcases hmem4 nd hnd with h | ⟨hpl2, rfl⟩ | ⟨hpr2, rfl⟩
              · exact inv.qfeas nd (hq1mem nd h)
              · exact (hplIff.mp hpl2).1
              · exact (hprIff.mp hpr2).1
            case qsums =>
              intro nd hnd
              rcases hmem4 nd hnd with h | ⟨_, rfl⟩ | ⟨_, rfl⟩
              · exact inv.qsums nd (hq1mem nd h)
              · refine ⟨P ++ [spr.get ⟨cur.level, hlt2⟩], ?_, ?_, ?_⟩
                · show (P ++ [spr.get ⟨cur.level, hlt2⟩]).Sublist (spr.take (cur.level + 1))
                  rw [take_succ_of_lt hlt2]
                  exact hP.append (List.Sublist.refl _)
                · show cur.total_cost + (spr.get ⟨cur.level, hlt2⟩).cost = _
                  rw [subsetCost_append, hPc]
                  simp [subsetCost]
                · show cur.total_impact + (spr.get ⟨cur.level, hlt2⟩).impact = _
                  rw [subsetValue_append, hPv]
                  simp [subsetValue]
              · exact ⟨P, hP.trans (take_sublist_take_succ spr cur.level), hPc, hPv⟩
            case qbound =>
              intro nd hnd
              rcases hmem4 nd hnd with h | ⟨hpl2, rfl⟩ | ⟨hpr2, rfl⟩
              · exact inv.qbound nd (hq1mem nd h)
              · intro R hR hRt
                have hws := hsound (cur.total_cost + (spr.get ⟨cur.level, hlt2⟩).cost)
                  (hplIff.mp hpl2).1 R hR hRt
                show (cur.total_impact + (spr.get ⟨cur.level, hlt2⟩).impact) + subsetValue R ≤
                  (cur.total_impact + (spr.get ⟨cur.level, hlt2⟩).impact) +
                    boundWalkT (b - (cur.total_cost + (spr.get ⟨cur.level, hlt2⟩).cost))
                      (spr.drop (cur.level + 1))
                linarith
              · intro R hR hRt
                have hws := hsound cur.total_cost hfeas_cur R hR hRt
                show cur.total_impact + subsetValue R ≤
                  cur.total_impact + boundWalkT (b - cur.total_cost) (spr.drop (cur.level + 1))
                linarith
            case bestNonneg =>
              rw [hv4']
              exact inv.bestNonneg
            case bestNone =>
              rw [hb4', hv4']
              exact inv.bestNone
            case bestSome =>
              rw [hb4', hv4']
              exact inv.bestSome
            case covered =>
              intro S hS hScost
              rcases inv.covered S hS hScost with hdom | ⟨nd, hndmem, R, hR, hRv, hRc⟩
              · exact Or.inl (by rw [hv4']; exact hdom)
              · have hin : nd ∈ (↑st.queue : Multiset BBNode) := Multiset.mem_coe.mpr hndmem
                rw [heappop_coe hpop] at hin
                rcases Multiset.mem_cons.mp hin with hndeq | hnd1
                · rw [hndeq] at hR hRv hRc
                  rw [hdropc] at hR
                  rcases List.sublist_cons_iff.mp hR with hRr | ⟨R2, rfl, hR2⟩
                  · -- completion does not use the branching project: exclude child
                    cases hpr2 : pushR
                    · left
                      rw [hv4']
                      have hnc : ¬((rightNodeOf spr b cur).total_cost ≤ b ∧
                          st.bestValue < (rightNodeOf spr b cur).bound) :=
                        fun hc => absurd (hprIff.mpr hc) (by rw [hpr2]; simp)
                      have hrc : (rightNodeOf spr b cur).total_cost ≤ b := hfeas_cur
                      have hrb : (rightNodeOf spr b cur).bound ≤ st.bestValue := by
                        by_contra hcon
                        exact hnc ⟨hrc, not_le.mp hcon⟩
                      have hws := hsound cur.total_cost hfeas_cur R hRr
                        (by rw [← hRc]; exact hScost)
                      calc subsetValue S = cur.total_impact + subsetValue R := hRv
                        _ ≤ cur.total_impact +
                            boundWalkT (b - cur.total_cost) (spr.drop (cur.level + 1)) := by
                              linarith
                        _ ≤ st.bestValue := hrb
                    · exact Or.inr ⟨rightNodeOf spr b cur, hpushR_mem hpr2, R, hRr, hRv, hRc⟩
                  · -- completion uses the branching project: include child
                    have hSv2 : subsetValue S =
                        (cur.total_impact + (spr.get ⟨cur.level, hlt2⟩).impact) + subsetValue R2 := by
                      rw [hRv, subsetValue_cons]
                      ring
                    have hSc2 : subsetCost S =
                        (cur.total_cost + (spr.get ⟨cur.level, hlt2⟩).cost) + subsetCost R2 := by
                      rw [hRc, subsetCost_cons]
                      ring
                    cases hpl2 : pushL
                    · left
                      rw [hv4']
                      have hnc : ¬((leftNodeOf spr b cur (spr.get ⟨cur.level, hlt2⟩)).total_cost ≤ b ∧
                          st.bestValue <
                            (leftNodeOf spr b cur (spr.get ⟨cur.level, hlt2⟩)).bound) :=
                        fun hc => absurd (hplIff.mpr hc) (by rw [hpl2]; simp)
                      have hlc : (leftNodeOf spr b cur (spr.get ⟨cur.level, hlt2⟩)).total_cost ≤ b := by
                        show cur.total_cost + (spr.get ⟨cur.level, hlt2⟩).cost ≤ b
                        have h0 : 0 ≤ subsetCost R2 :=
                          subsetCost_nonneg _ (fun q hq => (hposD q (hR2.subset hq)).le)
                        rw [hSc2] at hScost
                        linarith
                      have hlb : (leftNodeOf spr b cur (spr.get ⟨cur.level, hlt2⟩)).bound ≤
                          st.bestValue := by
                        by_contra hcon
                        exact hnc ⟨hlc, not_le.mp hcon⟩
                      have hws := hsound (cur.total_cost + (spr.get ⟨cur.level, hlt2⟩).cost)
                        hlc R2 hR2 (by rw [hSc2] at hScost; linarith)
                      calc subsetValue S
                          = (cur.total_impact + (spr.get ⟨cur.level, hlt2⟩).impact) +
                            subsetValue R2 := hSv2
                        _ ≤ (cur.total_impact + (spr.get ⟨cur.level, hlt2⟩).impact) +
                            boundWalkT (b - (cur.total_cost + (spr.get ⟨cur.level, hlt2⟩).cost))
                              (spr.drop (cur.level + 1)) := by linarith
                        _ ≤ st.bestValue := hlb
                    · exact Or.inr ⟨leftNodeOf spr b cur (spr.get ⟨cur.level, hlt2⟩),
                        hpushL_mem hpl2, R2, hR2, hSv2, hSc2⟩
                · exact Or.inr ⟨nd, hq1_sub nd (Multiset.mem_coe.mp hnd1), R, hR, hRv, hRc⟩
          have hm4 : measureQ spr.length st4.queue < n := by
            have hle := measureQ_le_of_coe (n := spr.length) hq4
            have h3 := three_pow_level hlt2
            omega
          obtain ⟨stF, hF, hinvF, hqF⟩ := ih st4 hm4 hinv4
          exact ⟨stF, (solveLoop_step_expand hpop hpr hlv hget hex).trans hF, hinvF, hqF⟩

lemma mkBranchAndBound_some {input : List Project} {b : ℚ} {bb : BranchAndBound}
    (hmk : mkBranchAndBound input b = some bb) :
    bb.projects = sortProjects input ∧ bb.budget = b ∧ input ≠ [] ∧ 0 < b := by
  unfold mkBranchAndBound at hmk
  by_cases h1 : input.isEmpty
  · rw [if_pos h1] at hmk
    cases hmk
  · rw [if_neg h1] at hmk
    by_cases h2 : b ≤ 0
    · rw [if_pos h2] at hmk
      cases hmk
    · rw [if_neg h2] at hmk
      obtain rfl := Option.some.inj hmk
      exact ⟨rfl, rfl, fun h => h1 (by rw [h]; rfl), not_le.mp h2⟩

lemma solveLoop_from_root (spr : List Project) (b : ℚ) (hb : 0 < b)
    (hpos : ∀ p ∈ spr, 0 < p.cost) (hval : ∀ p ∈ spr, 0 ≤ p.impact)
    (hsort : spr.Pairwise (fun a c => c.impact * a.cost ≤ a.impact * c.cost)) :
    ∃ stF, solveLoop spr b (3 ^ spr.length + 1)
        { queue := [{ level := 0, selected := [], total_cost := 0, total_impact := 0,
                      bound := (0 : ℚ) + boundWalkT (b - 0) (spr.drop 0) }],
          nodesExpanded := 0, nodesPrunedInfeasible := 0, nodesPrunedBound := 0,
          maxDepth := 0, best := none, bestValue := 0 } = some stF ∧
      LoopInv spr b stF ∧ stF.queue = [] := by
  apply solveLoop_main spr b hb hpos hval hsort
  · show measureQ spr.length [_] < 3 ^ spr.length + 1
    have hmq : measureQ spr.length [{ level := 0, selected := [], total_cost := 0,
                                      total_impact := 0,
                                      bound := (0 : ℚ) + boundWalkT (b - 0) (spr.drop 0) }] =
        3 ^ (spr.length - 0) := by
      unfold measureQ
      simp
    rw [hmq, Nat.sub_zero]
    omega
  · refine LoopInv.mk ?_ ?_ ?_ ?_ ?_ ?_ ?_ ?_
    · intro nd hnd
      obtain rfl := List.mem_singleton.mp hnd
      exact Nat.zero_le _
    · intro nd hnd
      obtain rfl := List.mem_singleton.mp hnd
      exact hb.le
    · intro nd hnd
      obtain rfl := List.mem_singleton.mp hnd
      exact ⟨[], by simp, rfl, rfl⟩
    · intro nd hnd
      obtain rfl := List.mem_singleton.mp hnd
      intro R hR hRt
      show (0 : ℚ) + subsetValue R ≤ (0 : ℚ) + boundWalkT (b - 0) (spr.drop 0)
      rw [List.drop_zero] at hR ⊢
      have hRt2 : (0 : ℚ) + subsetCost R ≤ b := hRt
      have hs := boundWalkT_sound spr hpos hval hsort (b - 0) (by linarith) R hR (by linarith)
      linarith
    · exact le_refl 0
    · exact fun _ => rfl
    · intro bn hbn
      exact absurd hbn (by simp)
    · intro S hS hSc
      refine Or.inr ⟨_, List.mem_singleton_self _, S, ?_, ?_, ?_⟩
      · rw [List.drop_zero]
        exact hS
      · exact (zero_add _).symm
      · exact (zero_add _).symm

lemma solve_unfold (bb : BranchAndBound) (t0 t1 : ℚ)
    (hpos : ∀ p ∈ bb.projects, 0 < p.cost) :
    bb.solve t0 t1 = (solveLoop bb.projects bb.budget (3 ^ bb.projects.length + 1)
      { queue := [{ level := 0, selected := [], total_cost := 0, total_impact := 0,
                    bound := (0 : ℚ) + boundWalkT (bb.budget - 0) (bb.projects.drop 0) }],
        nodesExpanded := 0, nodesPrunedInfeasible := 0, nodesPrunedBound := 0,
        maxDepth := 0, best := none, bestValue := 0 }).map
      (fun stF => prepareResult bb.projects bb.budget stF (t1 - t0)) := by
  unfold BranchAndBound.solve
  rw [calculateBound_eq _ _ _ hpos]
  dsimp only
  have hq : heappush [] { level := 0, selected := [], total_cost := 0, total_impact := 0,
                          bound := (0 : ℚ) + boundWalkT (bb.budget - 0) (bb.projects.drop 0) } =
      [{ level := 0, selected := [], total_cost := 0, total_impact := 0,
         bound := (0 : ℚ) + boundWalkT (bb.budget - 0) (bb.projects.drop 0) }] := rfl
  rw [hq]
  cases h : solveLoop bb.projects bb.budget (3 ^ bb.projects.length + 1)
      { queue := [{ level := 0, selected := [], total_cost := 0, total_impact := 0,
                    bound := (0 : ℚ) + boundWalkT (bb.budget - 0) (bb.projects.drop 0) }],
        nodesExpanded := 0, nodesPrunedInfeasible := 0, nodesPrunedBound := 0,
        maxDepth := 0, best := none, bestValue := 0 } with
  | none => rfl
  | some stF => rfl

lemma solve_extract (input : List Project) (b : ℚ) (bb : BranchAndBound)
    (hmk : mkBranchAndBound input b = some bb)
    (hpos : ∀ p ∈ input, 0 < p.cost) (hval : ∀ p ∈ input, 0 ≤ p.impact)
    (heff : ∀ p ∈ input, p.efficiency = p.impact / p.cost) (t0 t1 : ℚ) :
    ∃ stF : BBState, LoopInv (sortProjects input) b stF ∧ stF.queue = [] ∧
      stF.bestValue = knapsackOpt input b ∧
      bb.solve t0 t1 = some (prepareResult (sortProjects input) b stF (t1 - t0)) := by
  obtain ⟨hproj, hbud, hne, hb⟩ := mkBranchAndBound_some hmk
  have hperm := sortProjects_perm input
  have hpos2 : ∀ p ∈ sortProjects input, 0 < p.cost := fun p hp => hpos p (hperm.subset hp)
  have hval2 : ∀ p ∈ sortProjects input, 0 ≤ p.impact := fun p hp => hval p (hperm.subset hp)
  have hsort := sortProjects_sorted_ratio input hpos heff
  obtain ⟨stF, hrun, hinvF, hqF⟩ := solveLoop_from_root (sortProjects input) b hb hpos2 hval2 hsort
  have hopt : stF.bestValue = knapsackOpt input b := by
    rw [← knapsackOpt_perm hperm b]
    have hub : knapsackOpt (sortProjects input) b ≤ stF.bestValue := by
      apply knapsackOpt_le hinvF.bestNonneg
      intro S hS hc
      rcases hinvF.covered S hS hc with hdom | ⟨nd, hnd, _⟩
      · exact hdom
      · rw [hqF] at hnd
        cases hnd
    have hlb : stF.bestValue ≤ knapsackOpt (sortProjects input) b := by
      cases hbf : stF.best with
      | none =>
        rw [hinvF.bestNone hbf]
        exact knapsackOpt_nonneg _ _
      | some bn =>
        obtain ⟨_, _, _, P, hP, hPc, hPv⟩ := hinvF.bestSome bn hbf
        rw [← hPv]
        exact le_knapsackOpt hP hPc
    linarith
  refine ⟨stF, hinvF, hqF, hopt, ?_⟩
  rw [solve_unfold bb t0 t1 (by rw [hproj]; exact hpos2), hproj, hbud, hrun]
  rfl

lemma pairwise_ratio_of_effGE {ps : List Project} (hpos : ∀ p ∈ ps, 0 < p.cost)
    (heff : ∀ p ∈ ps, p.efficiency = p.impact / p.cost) (hsort : ps.Pairwise effGE) :
    ps.Pairwise (fun a b => b.impact * a.cost ≤ a.impact * b.cost) := by
  refine List.Pairwise.imp_of_mem ?_ hsort
  intro a b ha hb hab
  have hac := hpos a ha
  have hbc := hpos b hb
  unfold effGE at hab
  rw [heff a ha, heff b hb, div_le_div_iff₀ hbc hac] at hab
  linarith

lemma solve_values (input : List Project) (b : ℚ) (bb : BranchAndBound)
    (hmk : mkBranchAndBound input b = some bb)
    (hpos : ∀ p ∈ input, 0 < p.cost) (hval : ∀ p ∈ input, 0 ≤ p.impact)
    (heff : ∀ p ∈ input, p.efficiency = p.impact / p.cost) (t0 t1 : ℚ) :
    ∃ r, bb.solve t0 t1 = some r ∧ r.returnedValue = knapsackOpt input b ∧
      r.solutionCost ≤ b ∧ (r.status = "optimal" ↔ 0 < knapsackOpt input b) := by
  obtain ⟨-, -, -, hb⟩ := mkBranchAndBound_some hmk
  obtain ⟨stF, hinvF, hqF, hopt, hsolve⟩ := solve_extract input b bb hmk hpos hval heff t0 t1
  cases hbf : stF.best with
  | none =>
    have hr : prepareResult (sortProjects input) b stF (t1 - t0) =
        SolveResult.noSolution "Nenhuma solucao viavel encontrada"
          (getMetrics stF (t1 - t0)) := by
      unfold prepareResult
      rw [hbf]
    rw [hr] at hsolve
    have h0 : knapsackOpt input b = 0 := by
      rw [← hopt]
      exact hinvF.bestNone hbf
    refine ⟨_, hsolve, ?_, ?_, ?_⟩
    · show (0 : ℚ) = knapsackOpt input b
      rw [h0]
    · show (0 : ℚ) ≤ b
      exact hb.le
    · show ("no_solution" = "optimal") ↔ _
      rw [h0]
      exact iff_of_false (by decide) (lt_irrefl 0)
  | some bn =>
    obtain ⟨hposv, hveq, hcle, -⟩ := hinvF.bestSome bn hbf
    have hr : prepareResult (sortProjects input) b stF (t1 - t0) =
        SolveResult.optimal
          { selected_projects :=
              (sortProjects input).filter (fun p => bn.selected.contains p.id),
            total_cost := bn.total_cost, total_impact := bn.total_impact,
            budget_used_pct := bn.total_cost / b * 100,
            n_projects_selected :=
              ((sortProjects input).filter (fun p => bn.selected.contains p.id)).length }
          (getMetrics stF (t1 - t0))
          { budget := b, n_projects_available := (sortProjects input).length,
            execution_time := t1 - t0 } := by
      unfold prepareResult
      rw [hbf]
    rw [hr] at hsolve
    refine ⟨_, hsolve, ?_, ?_, ?_⟩
    · show bn.total_impact = knapsackOpt input b
      rw [← hopt, hveq]
    · show bn.total_cost ≤ b
      exact hcle
    · show ("optimal" = "optimal") ↔ _
      rw [← hopt]
      exact iff_of_true rfl (hveq ▸ hposv)

/-- C1: on every instance the constructor accepts whose costs are
strictly positive, whose impacts are non-negative and whose stored
efficiencies are the impact/cost ratios, `solve` returns a result, and
if that result's status is `"optimal"` its total impact equals the
0/1-knapsack optimum and its total cost is within the budget.  (The
claim's weaker precondition, non-negative costs, is refuted by
`c1_optimal_value_cex`.) -/
theorem c1_optimal_value (input : List Project) (b : ℚ) (bb : BranchAndBound)
    (hmk : mkBranchAndBound input b = some bb)
    (hpos : ∀ p ∈ input, 0 < p.cost) (hval : ∀ p ∈ input, 0 ≤ p.impact)
    (heff : ∀ p ∈ input, p.efficiency = p.impact / p.cost) (t0 t1 : ℚ) :
    ∃ r, bb.solve t0 t1 = some r ∧
      (r.status = "optimal" →
        r.returnedValue = knapsackOpt input b ∧ r.solutionCost ≤ b) := by
  obtain ⟨r, hr, hv, hc, -⟩ := solve_values input b bb hmk hpos hval heff t0 t1
  exact ⟨r, hr, fun _ => ⟨hv, hc⟩⟩

/-- C1 witness: the theorem applied to spec Scenario A (budget 100). -/
theorem c1_optimal_value_witness :
    mkBranchAndBound c1WitnessProjects 100 =
      some ⟨sortProjects c1WitnessProjects, 100⟩ ∧
    ∃ r, (BranchAndBound.mk (sortProjects c1WitnessProjects) 100).solve 0 0 = some r ∧
      (r.status = "optimal" →
        r.returnedValue = knapsackOpt c1WitnessProjects 100 ∧ r.solutionCost ≤ 100) := by
  refine ⟨by with_unfolding_all decide, ?_⟩
  exact c1_optimal_value c1WitnessProjects 100 ⟨sortProjects c1WitnessProjects, 100⟩
    (by with_unfolding_all decide) (by with_unfolding_all decide)
    (by with_unfolding_all decide) (by with_unfolding_all decide) 0 0

/-- C1 counterexample: `c1CexProjects` has non-negative costs and
impacts and budget `2 > 0`, the solver answers `"optimal"` with total
impact `21/2`, yet the knapsack optimum is `16`. -/
theorem c1_optimal_value_cex :
    (∀ p ∈ c1CexProjects, 0 ≤ p.cost ∧ 0 ≤ p.impact) ∧ c1CexProjects ≠ [] ∧
    mkBranchAndBound c1CexProjects 2 = some ⟨sortProjects c1CexProjects, 2⟩ ∧
    ((BranchAndBound.mk (sortProjects c1CexProjects) 2).solve 0 0).map
        (fun r => (r.status, r.returnedValue)) = some ("optimal", 21 / 2) ∧
    knapsackOpt c1CexProjects 2 = 16 ∧ (21 / 2 : ℚ) ≠ 16 := by
  with_unfolding_all decide

/-- C2: for projects with strictly positive costs and non-negative
impacts, stored efficiencies equal to impact/cost, sorted by efficiency
non-increasing, and a node whose accumulated cost fits the budget,
`calculate_bound` returns a bound that dominates the value of the node
plus any feasible completion by projects at index ≥ level.  (The claim's
non-negative costs are refuted by `c2_bound_sound_cex`.) -/
theorem c2_bound_sound (ps : List Project) (budget : ℚ) (node : BBNode)
    (hpos : ∀ p ∈ ps, 0 < p.cost) (hval : ∀ p ∈ ps, 0 ≤ p.impact)
    (heff : ∀ p ∈ ps, p.efficiency = p.impact / p.cost)
    (hsort : ps.Pairwise effGE) (hfeas : node.total_cost ≤ budget) :
    ∃ bound, calculateBound ps budget node = some bound ∧
      ∀ R, R.Sublist (ps.drop node.level) →
        node.total_cost + subsetCost R ≤ budget →
        node.total_impact + subsetValue R ≤ bound := by
  refine ⟨_, calculateBound_eq ps budget node hpos, ?_⟩
  exact calculateBound_sound hpos hval (pairwise_ratio_of_effGE hpos heff hsort) hfeas

/-- C2 witness: the theorem applied to the spec's bound-function
instance, completion `{P1, P2}` at the root. -/
theorem c2_bound_sound_witness :
    ∃ bound, calculateBound c2WitnessProjects 30
        { level := 0, selected := [], total_cost := 0, total_impact := 0, bound := 0 } =
        some bound ∧
      (0 : ℚ) + subsetValue (c2WitnessProjects.take 2) ≤ bound := by
  obtain ⟨bound, hcb, hs⟩ := c2_bound_sound c2WitnessProjects 30
    { level := 0, selected := [], total_cost := 0, total_impact := 0, bound := 0 }
    (by with_unfolding_all decide) (by with_unfolding_all decide)
    (by with_unfolding_all decide) (by with_unfolding_all decide)
    (by with_unfolding_all decide)
  exact ⟨bound, hcb, hs (c2WitnessProjects.take 2)
    (by rw [List.drop_zero]; exact (List.take_prefix 2 c2WitnessProjects).sublist)
    (by with_unfolding_all decide)⟩

/-- C2 counterexample: with a zero-cost project (non-negative costs,
efficiency-sorted) the walk stops at the first project that does not
fit, so the zero-cost completion `{Z}` of the root has value `100` while
the computed bound is `1/2`. -/
theorem c2_bound_sound_cex :
    (∀ p ∈ c2CexProjects, 0 ≤ p.cost ∧ 0 ≤ p.impact) ∧
    c2CexProjects.Pairwise effGE ∧
    calculateBound c2CexProjects (1 / 2)
      { level := 0, selected := [], total_cost := 0, total_impact := 0, bound := 0 } =
      some (1 / 2) ∧
    (c2CexProjects.drop 1).Sublist (c2CexProjects.drop 0) ∧
    (0 : ℚ) + subsetCost (c2CexProjects.drop 1) ≤ 1 / 2 ∧
    ¬((0 : ℚ) + subsetValue (c2CexProjects.drop 1) ≤ 1 / 2) := by
  with_unfolding_all decide

/-- C3: when every project costs more than the budget (so in particular
the cheapest does), `solve` reports `"no_solution"`.  The claim's second
half — a fitting zero-value project yields status optimal with value 0 —
is refuted by `c3_no_solution_cex`: `update_best_solution` demands a
strict improvement over the zero incumbent, so such instances are also
reported `"no_solution"`. -/
theorem c3_no_solution (input : List Project) (b : ℚ) (bb : BranchAndBound)
    (hmk : mkBranchAndBound input b = some bb)
    (hcheap : ∀ p ∈ input, b < p.cost) (t0 t1 : ℚ) :
    (bb.solve t0 t1).map SolveResult.status = some "no_solution" := by
  obtain ⟨hproj, hbud, hne, hb⟩ := mkBranchAndBound_some hmk
  have hperm := sortProjects_perm input
  have hcheap2 : ∀ p ∈ sortProjects input, b < p.cost :=
    fun p hp => hcheap p (hperm.subset hp)
  have hpos2 : ∀ p ∈ sortProjects input, 0 < p.cost :=
    fun p hp => lt_trans hb (hcheap2 p hp)
  have hzero : ∀ P, P.Sublist (sortProjects input) → subsetCost P ≤ b →
      subsetValue P ≤ 0 := by
    intro P hP hPc
    cases P with
    | nil => exact le_refl 0
    | cons p P2 =>
      exfalso
      have hp : p ∈ sortProjects input := hP.subset (List.mem_cons_self _ _)
      have h2 : 0 ≤ subsetCost P2 := subsetCost_nonneg P2 (fun q hq =>
        (hpos2 q (hP.subset (List.mem_cons_of_mem _ hq))).le)
      have h3 := hcheap2 p hp
      rw [subsetCost_cons] at hPc
      linarith
  obtain ⟨stF, hrun, hbest⟩ := solveLoop_noSolution (sortProjects input) b hpos2 hzero
    (3 ^ (sortProjects input).length + 1)
    { queue := [{ level := 0, selected := [], total_cost := 0, total_impact := 0,
                  bound := (0 : ℚ) + boundWalkT (b - 0) ((sortProjects input).drop 0) }],
      nodesExpanded := 0, nodesPrunedInfeasible := 0, nodesPrunedBound := 0,
      maxDepth := 0, best := none, bestValue := 0 }
    (by
      have hmq : measureQ (sortProjects input).length
          [{ level := 0, selected := [], total_cost := 0, total_impact := 0,
             bound := (0 : ℚ) + boundWalkT (b - 0) ((sortProjects input).drop 0) }] =
          3 ^ ((sortProjects input).length - 0) := by
        unfold measureQ
        simp
      rw [hmq, Nat.sub_zero]
      omega)
    (by
      refine NoSolInv.mk ?_ ?_ rfl rfl
      · intro nd hnd
        obtain rfl := List.mem_singleton.mp hnd
        exact Nat.zero_le _
      · intro nd hnd
        obtain rfl := List.mem_singleton.mp hnd
        exact ⟨[], by simp, rfl, rfl⟩)
  rw [solve_unfold bb t0 t1 (by rw [hproj]; exact hpos2), hproj, hbud, hrun]
  have hr : (prepareResult (sortProjects input) b stF (t1 - t0)).status =
      "no_solution" := by
    unfold prepareResult
    rw [hbest]
    rfl
  show some (prepareResult (sortProjects input) b stF (t1 - t0)).status =
    some "no_solution"
  rw [hr]

/-- C3 witness: the theorem applied to spec Scenario C (costs 100 and
150, budget 50). -/
theorem c3_no_solution_witness :
    mkBranchAndBound c3WitnessProjects 50 = some ⟨sortProjects c3WitnessProjects, 50⟩ ∧
    ((BranchAndBound.mk (sortProjects c3WitnessProjects) 50).solve 0 0).map
      SolveResult.status = some "no_solution" := by
  refine ⟨by with_unfolding_all decide, ?_⟩
  exact c3_no_solution c3WitnessProjects 50 ⟨sortProjects c3WitnessProjects, 50⟩
    (by with_unfolding_all decide) (by with_unfolding_all decide) 0 0

/-- C3 counterexample: project `G` (cost 2, value 0) fits within the
budget 2, yet the result's status is `"no_solution"`, not the claimed
optimal-with-value-zero. -/
theorem c3_no_solution_cex :
    (∃ p ∈ c3CexProjects, p.cost ≤ 2 ∧ p.impact = 0) ∧
    mkBranchAndBound c3CexProjects 2 = some ⟨sortProjects c3CexProjects, 2⟩ ∧
    ((BranchAndBound.mk (sortProjects c3CexProjects) 2).solve 0 0).map
      SolveResult.status = some "no_solution" ∧
    ("no_solution" : String) ≠ "optimal" := by
  with_unfolding_all decide

/-- C4: the constructor raises (returns `none`) exactly for an empty
project list or a non-positive budget.  The claim's additional
validations — negative cost or negative value — are not performed, as
`c4_constructor_validation_cex` shows. -/
theorem c4_constructor_validation (input : List Project) (b : ℚ) :
    mkBranchAndBound input b = none ↔ input = [] ∨ b ≤ 0 := by
  unfold mkBranchAndBound
  by_cases h1 : input.isEmpty
  · rw [if_pos h1]
    exact iff_of_true rfl (Or.inl (List.isEmpty_iff.mp h1))
  · rw [if_neg h1]
    by_cases h2 : b ≤ 0
    · rw [if_pos h2]
      exact iff_of_true rfl (Or.inr h2)
    · rw [if_neg h2]
      refine iff_of_false (by simp) ?_
      rintro (rfl | hb2)
      · exact h1 rfl
      · exact h2 hb2

/-- C4 counterexample: a project of negative cost is accepted by the
constructor. -/
theorem c4_constructor_validation_cex :
    (∃ p ∈ c4CexProjects, p.cost < 0) ∧
    mkBranchAndBound c4CexProjects 1 = some ⟨sortProjects c4CexProjects, 1⟩ := by
  with_unfolding_all decide

/-- C5: under the amended precondition (strictly positive costs, plus
non-negative impacts and ratio efficiencies) the total value `solve`
returns is at least the greedy heuristic's total value.  Spec Scenario E
realizes a strict gap (witness); with a zero-cost project the inequality
can fail (`c5_solve_ge_greedy_cex`). -/
theorem c5_solve_ge_greedy (input : List Project) (b : ℚ) (bb : BranchAndBound)
    (hmk : mkBranchAndBound input b = some bb)
    (hpos : ∀ p ∈ input, 0 < p.cost) (hval : ∀ p ∈ input, 0 ≤ p.impact)
    (heff : ∀ p ∈ input, p.efficiency = p.impact / p.cost) (t0 t1 tg0 tg1 : ℚ) :
    ∃ r, bb.solve t0 t1 = some r ∧
      (greedyHeuristic input b tg0 tg1).solution.total_impact ≤ r.returnedValue := by
  obtain ⟨-, -, -, hb⟩ := mkBranchAndBound_some hmk
  obtain ⟨r, hr, hv, -, -⟩ := solve_values input b bb hmk hpos hval heff t0 t1
  refine ⟨r, hr, ?_⟩
  rw [hv]
  exact greedy_le_opt input b tg0 tg1 hb

/-- C5 witness: spec Scenario E — solve returns 16, greedy returns 10,
and the theorem's inequality holds there. -/
theorem c5_solve_ge_greedy_witness :
    mkBranchAndBound c5WitnessProjects 10 = some ⟨sortProjects c5WitnessProjects, 10⟩ ∧
    (∃ r, (BranchAndBound.mk (sortProjects c5WitnessProjects) 10).solve 0 0 = some r ∧
      (greedyHeuristic c5WitnessProjects 10 0 0).solution.total_impact ≤
        r.returnedValue) ∧
    ((BranchAndBound.mk (sortProjects c5WitnessProjects) 10).solve 0 0).map
      SolveResult.returnedValue = some 16 ∧
    (greedyHeuristic c5WitnessProjects 10 0 0).solution.total_impact = 10 := by
  refine ⟨by with_unfolding_all decide, ?_, by with_unfolding_all decide,
    by with_unfolding_all decide⟩
  exact c5_solve_ge_greedy c5WitnessProjects 10 ⟨sortProjects c5WitnessProjects, 10⟩
    (by with_unfolding_all decide) (by with_unfolding_all decide)
    (by with_unfolding_all decide) (by with_unfolding_all decide) 0 0 0 0

/-- C5 counterexample: on `c5CexProjects` (non-negative costs and
values, budget 2) greedy returns 16 while solve returns only 21/2. -/
theorem c5_solve_ge_greedy_cex :
    (∀ p ∈ c5CexProjects, 0 ≤ p.cost ∧ 0 ≤ p.impact) ∧ c5CexProjects ≠ [] ∧
    mkBranchAndBound c5CexProjects 2 = some ⟨sortProjects c5CexProjects, 2⟩ ∧
    ((BranchAndBound.mk (sortProjects c5CexProjects) 2).solve 0 0).map
      SolveResult.returnedValue = some (21 / 2) ∧
    (greedyHeuristic c5CexProjects 2 0 0).solution.total_impact = 16 ∧
    ¬((16 : ℚ) ≤ 21 / 2) := by
  with_unfolding_all decide

lemma eraseResultTime_prepareResult (ps : List Project) (b : ℚ) (st : BBState)
    (x y : ℚ) :
    eraseResultTime (prepareResult ps b st x) = eraseResultTime (prepareResult ps b st y) := by
  unfold prepareResult
  cases st.best with
  | none => rfl
  | some bn => rfl

/-- C6: `solve` is deterministic up to the wall-clock readings: two runs
on the same object agree on every field of the result except the
elapsed-time fields derived from `time.time()`.  Byte-for-byte equality
including the elapsed-time field (the claim) fails:
`c6_deterministic_cex`. -/
theorem c6_deterministic (bb : BranchAndBound) (t0 t1 t0a t1a : ℚ) :
    (bb.solve t0 t1).map eraseResultTime = (bb.solve t0a t1a).map eraseResultTime := by
  unfold BranchAndBound.solve
  cases hcb : calculateBound bb.projects bb.budget
      { level := 0, selected := [], total_cost := 0, total_impact := 0, bound := 0 } with
  | none => rfl
  | some rb =>
    dsimp only
    cases hsl : solveLoop bb.projects bb.budget (3 ^ bb.projects.length + 1)
        { queue := heappush [] { level := 0, selected := [], total_cost := 0,
                                 total_impact := 0, bound := rb },
          nodesExpanded := 0, nodesPrunedInfeasible := 0, nodesPrunedBound := 0,
          maxDepth := 0, best := none, bestValue := 0 } with
    | none => rfl
    | some stF =>
      show some (eraseResultTime (prepareResult bb.projects bb.budget stF (t1 - t0))) =
        some (eraseResultTime (prepareResult bb.projects bb.budget stF (t1a - t0a)))
      rw [eraseResultTime_prepareResult]

/-- C6 counterexample: with distinct `time.time()` readings the two
results differ (in the elapsed-time fields), so they are not
byte-identical. -/
theorem c6_deterministic_cex :
    mkBranchAndBound c6CexProjects 1 = some ⟨sortProjects c6CexProjects, 1⟩ ∧
    (BranchAndBound.mk (sortProjects c6CexProjects) 1).solve 0 0 ≠
      (BranchAndBound.mk (sortProjects c6CexProjects) 1).solve 0 1 := by
  with_unfolding_all decide

/-- C8: under the amended precondition (strictly positive costs,
non-negative impacts, ratio efficiencies) the returned total value is
monotone in the budget.  With a zero-cost project it is not
(`c8_monotone_in_budget_cex`). -/
theorem c8_monotone_in_budget (input : List Project) (b1 b2 : ℚ)
    (bb1 bb2 : BranchAndBound)
    (hmk1 : mkBranchAndBound input b1 = some bb1)
    (hmk2 : mkBranchAndBound input b2 = some bb2)
    (hpos : ∀ p ∈ input, 0 < p.cost) (hval : ∀ p ∈ input, 0 ≤ p.impact)
    (heff : ∀ p ∈ input, p.efficiency = p.impact / p.cost)
    (hle : b1 ≤ b2) (t0 t1 : ℚ) :
    ∃ r1 r2, bb1.solve t0 t1 = some r1 ∧ bb2.solve t0 t1 = some r2 ∧
      r1.returnedValue ≤ r2.returnedValue := by
  obtain ⟨r1, hr1, hv1, -, -⟩ := solve_values input b1 bb1 hmk1 hpos hval heff t0 t1
  obtain ⟨r2, hr2, hv2, -, -⟩ := solve_values input b2 bb2 hmk2 hpos hval heff t0 t1
  refine ⟨r1, r2, hr1, hr2, ?_⟩
  rw [hv1, hv2]
  exact knapsackOpt_mono hle

/-- C8 witness: the theorem applied to the spec Scenario B items with
budgets 20 ≤ 40. -/
theorem c8_monotone_in_budget_witness :
    mkBranchAndBound c8WitnessProjects 20 = some ⟨sortProjects c8WitnessProjects, 20⟩ ∧
    mkBranchAndBound c8WitnessProjects 40 = some ⟨sortProjects c8WitnessProjects, 40⟩ ∧
    ∃ r1 r2, (BranchAndBound.mk (sortProjects c8WitnessProjects) 20).solve 0 0 = some r1 ∧
      (BranchAndBound.mk (sortProjects c8WitnessProjects) 40).solve 0 0 = some r2 ∧
      r1.returnedValue ≤ r2.returnedValue := by
  refine ⟨by with_unfolding_all decide, by with_unfolding_all decide, ?_⟩
  exact c8_monotone_in_budget c8WitnessProjects 20 40
    ⟨sortProjects c8WitnessProjects, 20⟩ ⟨sortProjects c8WitnessProjects, 40⟩
    (by with_unfolding_all decide) (by with_unfolding_all decide)
    (by with_unfolding_all decide) (by with_unfolding_all decide)
    (by with_unfolding_all decide) (by with_unfolding_all decide) 0 0

/-- C8 counterexample: `c8CexProjects` has non-negative costs and
values, yet the returned value drops from `21/2` at budget 2 to `19/2`
at the larger budget 3. -/
theorem c8_monotone_in_budget_cex :
    (∀ p ∈ c8CexProjects, 0 ≤ p.cost ∧ 0 ≤ p.impact) ∧ (0 : ℚ) < 2 ∧ (2 : ℚ) ≤ 3 ∧
    mkBranchAndBound c8CexProjects 2 = some ⟨sortProjects c8CexProjects, 2⟩ ∧
    mkBranchAndBound c8CexProjects 3 = some ⟨sortProjects c8CexProjects, 3⟩ ∧
    ((BranchAndBound.mk (sortProjects c8CexProjects) 2).solve 0 0).map
      SolveResult.returnedValue = some (21 / 2) ∧
    ((BranchAndBound.mk (sortProjects c8CexProjects) 3).solve 0 0).map
      SolveResult.returnedValue = some (19 / 2) ∧
    ¬((21 / 2 : ℚ) ≤ 19 / 2) := by
  with_unfolding_all decide

/-- C9: with strictly positive project costs, a node whose remaining
budget is zero (`total_cost = budget`) gets bound exactly
`total_impact`, and so does a node at level `n`.  With a zero-cost
project remaining the zero-remaining-budget half fails
(`c9_bound_exact_cex`). -/
theorem c9_bound_exact (ps : List Project) (budget : ℚ) (node : BBNode)
    (hpos : ∀ p ∈ ps, 0 < p.cost) :
    (node.total_cost = budget → calculateBound ps budget node = some node.total_impact) ∧
    (node.level = ps.length → calculateBound ps budget node = some node.total_impact) := by
  constructor
  · intro hcb
    rw [calculateBound_eq ps budget node hpos, hcb, sub_self,
      boundWalkT_zero _ (fun p hp => hpos p (List.drop_subset _ _ hp)), add_zero]
  · intro hlv
    rw [calculateBound_eq ps budget node hpos, hlv, List.drop_length]
    show some (node.total_impact + boundWalkT (budget - node.total_cost) []) = _
    rw [show boundWalkT (budget - node.total_cost) [] = 0 from rfl, add_zero]

/-- C9 witness: the theorem applied to a zero-remaining-budget node and
to a level-`n` node over positive-cost projects. -/
theorem c9_bound_exact_witness :
    calculateBound c9WitnessProjects 2 c9WitnessNode = some 3 ∧
    calculateBound c9WitnessProjects 10 c9WitnessLeafNode = some 8 := by
  constructor
  · have h := (c9_bound_exact c9WitnessProjects 2 c9WitnessNode
      (by with_unfolding_all decide)).1 (by with_unfolding_all decide)
    rw [h]
    rfl
  · have h := (c9_bound_exact c9WitnessProjects 10 c9WitnessLeafNode
      (by with_unfolding_all decide)).2 (by with_unfolding_all decide)
    rw [h]
    rfl

/-- C9 counterexample: at a node with `total_cost = budget = 1` but a
zero-cost project remaining, the bound is `8`, not `total_impact = 3`:
the zero-cost project's whole impact is still added. -/
theorem c9_bound_exact_cex :
    (∀ p ∈ c9CexProjects, 0 ≤ p.cost) ∧ c9CexNode.total_cost = 1 ∧
    calculateBound c9CexProjects 1 c9CexNode = some 8 ∧
    c9CexNode.total_impact = 3 ∧ (8 : ℚ) ≠ 3 := by
  with_unfolding_all decide

/-- C10: for non-negative costs and a node satisfying the feasibility
precondition `total_cost ≤ budget`, `calculate_bound` is total (the
division is only reached with a strictly positive divisor); and the
precondition is needed: on the infeasible node `c10InfeasibleNode` with
a remaining zero-cost project the division by zero is reached, modelled
by `none`. -/
theorem c10_bound_total (ps : List Project) (budget : ℚ) (node : BBNode)
    (hc : ∀ p ∈ ps, 0 ≤ p.cost) (hfeas : node.total_cost ≤ budget) :
    (calculateBound ps budget node).isSome = true ∧
    calculateBound c10ZeroCostProjects 1 c10InfeasibleNode = none := by
  constructor
  · have hw := boundWalk_isSome (budget - node.total_cost) (ps.drop node.level)
      (fun p hp => hc p (List.drop_subset _ _ hp)) (by linarith)
    unfold calculateBound
    cases hwv : boundWalk (budget - node.total_cost) (ps.drop node.level) with
    | none => rw [hwv] at hw; exact Bool.noConfusion hw
    | some w => rfl
  · with_unfolding_all decide

/-- C10 witness: the theorem applied to a feasible root node over
`c10WitnessProjects`. -/
theorem c10_bound_total_witness :
    (calculateBound c10WitnessProjects 8
      { level := 0, selected := [], total_cost := 0, total_impact := 0,
        bound := 0 }).isSome = true ∧
    calculateBound c10ZeroCostProjects 1 c10InfeasibleNode = none :=
  c10_bound_total c10WitnessProjects 8
    { level := 0, selected := [], total_cost := 0, total_impact := 0, bound := 0 }
    (by with_unfolding_all decide) (by with_unfolding_all decide)

lemma updateBest_nodesExpanded (b : ℚ) (st : BBState) (nd : BBNode) :
    (updateBestSolution b st nd).nodesExpanded = st.nodesExpanded := by
  unfold updateBestSolution
  by_cases hc : (isFeasible b nd && decide (st.bestValue < nd.total_impact)) = true
  · rw [if_pos hc]
  · rw [if_neg hc]

lemma expandStep_nodesExpanded {ps : List Project} {b : ℚ} {st2 st4 : BBState}
    {cur : BBNode} {project : Project}
    (h : expandStep ps b st2 cur project = some st4) :
    st4.nodesExpanded = st2.nodesExpanded := by
  unfold expandStep at h
  dsimp only at h
  cases h1 : calculateBound ps b { level := cur.level + 1,
                                   selected := cur.selected ++ [project.id],
                                   total_cost := cur.total_cost + project.cost,
                                   total_impact := cur.total_impact + project.impact,
                                   bound := 0 } with
  | none =>
    rw [h1] at h
    cases h
  | some lb =>
    rw [h1] at h
    dsimp only at h
    cases h2 : calculateBound ps b { level := cur.level + 1, selected := cur.selected,
                                     total_cost := cur.total_cost,
                                     total_impact := cur.total_impact, bound := 0 } with
    | none =>
      rw [h2] at h
      cases h
    | some rb =>
      rw [h2] at h
      dsimp only at h
      obtain rfl := Option.some.inj h
      rw [(pruneOrPush_spec b _ _).2.2.1, (pruneOrPush_spec b _ _).2.2.1]

lemma solveLoopG_core (projects : List Project) (budget : ℚ) :
    ∀ fuel (g : GState),
      (solveLoopG projects budget fuel g).map GState.core =
        solveLoop projects budget fuel g.core := by
  intro fuel
  induction fuel with
  | zero => intro g; rfl
  | succ n ih =>
    intro g
    rw [solveLoopG, solveLoop]
    cases hpop : heappop g.core.queue with
    | none => rfl
    | some res =>
      obtain ⟨cur, q1⟩ := res
      dsimp only
      by_cases hpr : (shouldPrune budget (poppedState g.core cur q1) cur).1 = true
      · rw [if_pos hpr, if_pos hpr]
        exact ih _
      · rw [if_neg hpr, if_neg hpr]
        by_cases hlv : cur.level = projects.length
        · rw [if_pos hlv, if_pos hlv]
          exact ih _
        · rw [if_neg hlv, if_neg hlv]
          cases hget : projects[cur.level]? with
          | none => rfl
          | some project =>
            dsimp only
            cases hex : expandStep projects budget
                (shouldPrune budget (poppedState g.core cur q1) cur).2.2 cur project with
            | none => rfl
            | some st4 =>
              dsimp only
              exact ih _

lemma solveLoopG_invariant (projects : List Project) (budget : ℚ) :
    ∀ fuel (g g2 : GState), solveLoopG projects budget fuel g = some g2 →
      g.core.nodesExpanded = g.popCount →
      g.popCount = g.expandCount + g.prunedPopCount + g.leafPopCount →
      g2.core.nodesExpanded = g2.popCount ∧
        g2.popCount = g2.expandCount + g2.prunedPopCount + g2.leafPopCount := by
  intro fuel
  induction fuel with
  | zero =>
    intro g g2 h _ _
    cases h
  | succ n ih =>
    intro g g2 h h1 h2
    rw [solveLoopG] at h
    cases hpop : heappop g.core.queue with
    | none =>
      rw [hpop] at h
      dsimp only at h
      obtain rfl := Option.some.inj h
      exact ⟨h1, h2⟩
    | some res =>
      obtain ⟨cur, q1⟩ := res
      rw [hpop] at h
      dsimp only at h
      by_cases hpr : (shouldPrune budget (poppedState g.core cur q1) cur).1 = true
      · rw [if_pos hpr] at h
        refine ih _ _ h ?_ ?_
        · show (shouldPrune budget (poppedState g.core cur q1) cur).2.2.nodesExpanded =
            g.popCount + 1
          rw [shouldPrune_nodesExpanded]
          show g.core.nodesExpanded + 1 = g.popCount + 1
          rw [h1]
        · show g.popCount + 1 =
            g.expandCount + (g.prunedPopCount + 1) + g.leafPopCount
          omega
      · rw [if_neg hpr] at h
        by_cases hlv : cur.level = projects.length
        · rw [if_pos hlv] at h
          refine ih _ _ h ?_ ?_
          · show (updateBestSolution budget
                (shouldPrune budget (poppedState g.core cur q1) cur).2.2
                cur).nodesExpanded = g.popCount + 1
            rw [updateBest_nodesExpanded, shouldPrune_nodesExpanded]
            show g.core.nodesExpanded + 1 = g.popCount + 1
            rw [h1]
          · show g.popCount + 1 =
              g.expandCount + g.prunedPopCount + (g.leafPopCount + 1)
            omega
        · rw [if_neg hlv] at h
          cases hget : projects[cur.level]? with
          | none =>
            rw [hget] at h
            cases h
          | some project =>
            rw [hget] at h
            dsimp only at h
            cases hex : expandStep projects budget
                (shouldPrune budget (poppedState g.core cur q1) cur).2.2 cur project with
            | none =>
              rw [hex] at h
              cases h
            | some st4 =>
              rw [hex] at h
              dsimp only at h
              refine ih _ _ h ?_ ?_
              · show st4.nodesExpanded = g.popCount + 1
                rw [expandStep_nodesExpanded hex, shouldPrune_nodesExpanded]
                show g.core.nodesExpanded + 1 = g.popCount + 1
                rw [h1]
              · show g.popCount + 1 =
                  (g.expandCount + 1) + g.prunedPopCount + g.leafPopCount
                omega

lemma metricsOf_prepareResult (ps : List Project) (b : ℚ) (st : BBState) (e : ℚ) :
    (prepareResult ps b st e).metricsOf = getMetrics st e := by
  unfold prepareResult
  cases st.best with
  | none => rfl
  | some bn => rfl

/-- C7: `nodes_expanded` is incremented on every pop, not only on
expansions: on any completed run the final counter equals the total
number of pops, which is the number of expansions plus the number of
pruned pops plus the number of leaf pops, and this is the value the
result's metrics report.  (The claim that pruned and leaf pops do not
increment it is refuted by `c7_nodes_expanded_counts_pops_cex`.) -/
theorem c7_nodes_expanded_counts_pops (bb : BranchAndBound) (g : GState)
    (hg : bb.solveG = some g) (t0 t1 : ℚ) :
    g.core.nodesExpanded = g.popCount ∧
    g.popCount = g.expandCount + g.prunedPopCount + g.leafPopCount ∧
    (bb.solve t0 t1).map (fun r => r.metricsOf.nodes_expanded) = some g.popCount := by
  unfold BranchAndBound.solveG at hg
  cases hcb : calculateBound bb.projects bb.budget
      { level := 0, selected := [], total_cost := 0, total_impact := 0, bound := 0 } with
  | none =>
    rw [hcb] at hg
    cases hg
  | some rb =>
    rw [hcb] at hg
    dsimp only at hg
    obtain ⟨h1, h2⟩ := solveLoopG_invariant bb.projects bb.budget _ _ _ hg rfl rfl
    refine ⟨h1, h2, ?_⟩
    have hcore := solveLoopG_core bb.projects bb.budget (3 ^ bb.projects.length + 1)
      { core := { queue := heappush [] { level := 0, selected := [], total_cost := 0,
                                         total_impact := 0, bound := rb },
                  nodesExpanded := 0, nodesPrunedInfeasible := 0, nodesPrunedBound := 0,
                  maxDepth := 0, best := none, bestValue := 0 },
        popCount := 0, expandCount := 0, prunedPopCount := 0, leafPopCount := 0 }
    rw [hg] at hcore
    unfold BranchAndBound.solve
    rw [hcb]
    dsimp only
    rw [← hcore]
    show some ((prepareResult bb.projects bb.budget g.core (t1 - t0)).metricsOf.nodes_expanded) =
      some g.popCount
    rw [metricsOf_prepareResult]
    show some g.core.nodesExpanded = some g.popCount
    rw [h1]

/-- C7 witness: the theorem applied to spec Scenario D (one project,
budget 100). -/
theorem c7_nodes_expanded_counts_pops_witness :
    mkBranchAndBound c7WitnessProjects 100 = some ⟨sortProjects c7WitnessProjects, 100⟩ ∧
    ∃ g, (BranchAndBound.mk (sortProjects c7WitnessProjects) 100).solveG = some g ∧
      g.core.nodesExpanded = g.popCount ∧
      g.popCount = g.expandCount + g.prunedPopCount + g.leafPopCount ∧
      ((BranchAndBound.mk (sortProjects c7WitnessProjects) 100).solve 0 0).map
        (fun r => r.metricsOf.nodes_expanded) = some g.popCount := by
  refine ⟨by with_unfolding_all decide, ?_⟩
  cases hg : (BranchAndBound.mk (sortProjects c7WitnessProjects) 100).solveG with
  | none => exact absurd hg (by with_unfolding_all decide)
  | some g =>
    obtain ⟨h1, h2, h3⟩ := c7_nodes_expanded_counts_pops
      (BranchAndBound.mk (sortProjects c7WitnessProjects) 100) g hg 0 0
    exact ⟨g, rfl, h1, h2, h3⟩

/-- C7 counterexample: one fitting project; the run pops two nodes (one
expansion, one leaf pop) and the reported `nodes_expanded` is `2`, not
the number of expansions `1`. -/
theorem c7_nodes_expanded_counts_pops_cex :
    mkBranchAndBound c7CexProjects 1 = some ⟨sortProjects c7CexProjects, 1⟩ ∧
    ((BranchAndBound.mk (sortProjects c7CexProjects) 1).solveG).map
      (fun g => (g.core.nodesExpanded, g.expandCount, g.prunedPopCount, g.leafPopCount)) =
      some (2, 1, 0, 1) ∧
    (2 : ℕ) ≠ 1 ∧
    ((BranchAndBound.mk (sortProjects c7CexProjects) 1).solve 0 0).map
      (fun r => r.metricsOf.nodes_expanded) = some 2 := by
  with_unfolding_all decide

end HRBB
